import Mathlib

/-!
Verification of the Capital Bikeshare schema-normalization and master-table
assembly pipeline (`src/capitalbike/data/transform.py`, `stations.py`,
`ingest.py`).

The embedding is shallow: polars DataFrame rows are association lists of
column name to value, column schemas are association lists of column name to
dtype, machine integers are `Int`, floating-point coordinates are `Rat`
(every claim touches only exactly representable values), datetimes are a
civil-calendar record converted to epoch seconds where arithmetic or
comparison is required, and S3 side effects of the ingest driver are an
explicit effect trace.  Fallible polars operations (strict casts, joins on a
missing key, `select` of an absent column) are `Except`.
-/

/-! ## Decimal rendering and strict decimal parsing

Models the polars `cast(pl.Utf8)` rendering of an `Int64` value and the
strict `cast(pl.Int64)` parsing of a `Utf8` value used by
`normalize_station_id`. -/

/-- Numeric value of a decimal digit character. -/
def charVal (c : Char) : Nat := c.toNat - 48

/-- Little-endian decimal digit characters of a natural number, with explicit
fuel so that evaluation is primitive recursion (empty for 0). -/
def natCharsRev (fuel n : Nat) : List Char :=
  match fuel with
  | 0 => []
  | fuel + 1 => if n = 0 then [] else Nat.digitChar (n % 10) :: natCharsRev fuel (n / 10)

/-- Big-endian decimal digit characters of a natural number (empty for 0). -/
def natChars (n : Nat) : List Char := (natCharsRev n n).reverse

theorem natCharsRev_eq (fuel : Nat) :
    ∀ n : Nat, n ≤ fuel → natCharsRev fuel n = (Nat.digits 10 n).map Nat.digitChar := by
  induction fuel with
  | zero =>
    intro n hn
    have : n = 0 := Nat.le_zero.mp hn
    subst this
    simp [natCharsRev]
  | succ fuel ih =>
    intro n hn
    by_cases h : n = 0
    · subst h; simp [natCharsRev]
    · have hlt : n / 10 < n := Nat.div_lt_self (Nat.pos_of_ne_zero h) (by norm_num)
      have hrec : natCharsRev fuel (n / 10) = (Nat.digits 10 (n / 10)).map Nat.digitChar :=
        ih (n / 10) (by omega)
      rw [Nat.digits_def' (b := 10) (by norm_num) (Nat.pos_of_ne_zero h)]
      simp [natCharsRev, h, hrec]

theorem natChars_eq (n : Nat) :
    natChars n = ((Nat.digits 10 n).map Nat.digitChar).reverse := by
  unfold natChars
  rw [natCharsRev_eq n n le_rfl]

/-- Decimal rendering of a natural number, as polars renders an integer. -/
def natToUtf8 (n : Nat) : String := if n = 0 then "0" else ⟨natChars n⟩

/-- Decimal rendering of an `Int64` value, as polars `cast(pl.Utf8)` renders it. -/
def intToUtf8 (n : Int) : String :=
  if n < 0 then "-" ++ natToUtf8 n.natAbs else natToUtf8 n.natAbs

/-- Strict parse of an unsigned decimal string; `none` on any non-digit. -/
def parseNatChars (l : List Char) : Option Nat :=
  if l ≠ [] ∧ l.all Char.isDigit then
    some (Nat.ofDigits 10 ((l.map charVal).reverse))
  else none

/-- Strict parse of a signed decimal string, modelling the polars strict
`Utf8 → Int64` cast. -/
def parseIntChars : List Char → Option Int
  | [] => none
  | c :: cs =>
    if c = '-' then (parseNatChars cs).map (fun m => -(m : Int))
    else (parseNatChars (c :: cs)).map (fun m => (m : Int))

/-- Model of the regex replacement `str.replace(r"\.0$", "")`: remove one
trailing `.0`, if present. -/
def stripDotZero (l : List Char) : List Char :=
  match l.reverse with
  | '0' :: '.' :: rest => rest.reverse
  | _ => l

theorem stripDotZero_append (l : List Char) :
    stripDotZero (l ++ ['.', '0']) = l := by
  unfold stripDotZero
  have h : (l ++ ['.', '0']).reverse = '0' :: '.' :: l.reverse := by simp
  rw [h]
  simp

theorem stripDotZero_of_not_dot {l : List Char} (h : '.' ∉ l) :
    stripDotZero l = l := by
  unfold stripDotZero
  split
  · next rest heq =>
    exact absurd (by
      have : '.' ∈ l.reverse := by rw [heq]; simp
      simpa using this) h
  · rfl

theorem charVal_digitChar {d : Nat} (h : d < 10) :
    charVal (Nat.digitChar d) = d := by
  interval_cases d <;> rfl

theorem isDigit_digitChar {d : Nat} (h : d < 10) :
    (Nat.digitChar d).isDigit = true := by
  interval_cases d <;> rfl

theorem digitChar_ne_dot {d : Nat} (h : d < 10) : Nat.digitChar d ≠ '.' := by
  interval_cases d <;> decide

theorem natChars_all_digits (n : Nat) : (natChars n).all Char.isDigit = true := by
  rw [List.all_eq_true]
  intro c hc
  rw [natChars_eq] at hc
  rw [List.mem_reverse, List.mem_map] at hc
  obtain ⟨d, hd, rfl⟩ := hc
  exact isDigit_digitChar (Nat.digits_lt_base (by norm_num) hd)

theorem natToUtf8_all_digits (n : Nat) :
    (natToUtf8 n).data.all Char.isDigit = true := by
  unfold natToUtf8
  split
  · decide
  · exact natChars_all_digits n

theorem natToUtf8_ne_nil (n : Nat) : (natToUtf8 n).data ≠ [] := by
  unfold natToUtf8
  split
  · decide
  · next h =>
    show natChars n ≠ []
    rw [natChars_eq]
    simp [Nat.digits_ne_nil_iff_ne_zero, h]

theorem parseNatChars_natToUtf8 (n : Nat) :
    parseNatChars (natToUtf8 n).data = some n := by
  by_cases h : n = 0
  · subst h; decide
  · have hdata : (natToUtf8 n).data = natChars n := by
      unfold natToUtf8; rw [if_neg h]
    rw [hdata]
    unfold parseNatChars
    rw [if_pos ⟨by simpa [hdata] using natToUtf8_ne_nil n,
        natChars_all_digits n⟩]
    congr 1
    rw [natChars_eq]
    rw [List.map_reverse, List.reverse_reverse, List.map_map]
    have hid : ((Nat.digits 10 n).map (charVal ∘ Nat.digitChar)) =
        (Nat.digits 10 n).map id := by
      apply List.map_congr_left
      intro d hd
      exact charVal_digitChar (Nat.digits_lt_base (by norm_num) hd)
    rw [hid, List.map_id, Nat.ofDigits_digits]

theorem parseIntChars_of_digits {l : List Char} (hne : l ≠ [])
    (hdig : l.all Char.isDigit = true) :
    parseIntChars l = (parseNatChars l).map (fun m => (m : Int)) := by
  cases l with
  | nil => exact absurd rfl hne
  | cons c cs =>
    have hc : c.isDigit = true := by
      rw [List.all_eq_true] at hdig
      exact hdig c (List.mem_cons_self c cs)
    have hne' : c ≠ '-' := by
      intro h; subst h; simp [Char.isDigit] at hc
    simp only [parseIntChars]
    rw [if_neg hne']

theorem parseIntChars_intToUtf8 (n : Int) :
    parseIntChars (intToUtf8 n).data = some n := by
  by_cases h : n < 0
  · have hdata : (intToUtf8 n).data = '-' :: (natToUtf8 n.natAbs).data := by
      unfold intToUtf8
      rw [if_pos h, String.data_append]
      rfl
    rw [hdata]
    simp only [parseIntChars, if_true]
    rw [parseNatChars_natToUtf8]
    simp [Int.natCast_natAbs, abs_of_neg h]
  · have hdata : (intToUtf8 n).data = (natToUtf8 n.natAbs).data := by
      unfold intToUtf8; rw [if_neg h]
    rw [hdata,
      parseIntChars_of_digits (natToUtf8_ne_nil _) (natToUtf8_all_digits _),
      parseNatChars_natToUtf8]
    have hval : ((n.natAbs : Int)) = n := by omega
    simp [hval]

theorem dot_not_mem_natToUtf8 (n : Nat) : '.' ∉ (natToUtf8 n).data := by
  intro hmem
  have := natToUtf8_all_digits n
  rw [List.all_eq_true] at this
  have := this '.' hmem
  simp [Char.isDigit] at this

theorem dot_not_mem_intToUtf8 (n : Int) : '.' ∉ (intToUtf8 n).data := by
  unfold intToUtf8
  split
  · rw [String.data_append]
    intro hmem
    rcases List.mem_append.mp hmem with h1 | h2
    · exact absurd h1 (by decide)
    · exact dot_not_mem_natToUtf8 _ h2
  · exact dot_not_mem_natToUtf8 _

/-! ## Values and datetimes -/

/-- A civil-calendar timestamp, the semantic content of a polars `Datetime`
value parsed by `str.strptime` from `"YYYY-MM-DD HH:MM:SS"`. -/
structure Timestamp where
  year : Int
  month : Int
  day : Int
  hour : Int
  minute : Int
  second : Int
deriving DecidableEq, Repr

/-- Days since 1970-01-01 of a civil date (the standard days-from-civil
algorithm; `/` on `Int` with a positive divisor is floor division). -/
def daysFromCivil (y m d : Int) : Int :=
  let y' : Int := if m ≤ 2 then y - 1 else y
  let era : Int := y' / 400
  let yoe : Int := y' - era * 400
  let mp : Int := if 2 < m then m - 3 else m + 9
  let doy : Int := (153 * mp + 2) / 5 + d - 1
  let doe : Int := yoe * 365 + yoe / 4 - yoe / 100 + doy
  era * 146097 + doe - 719468

/-- Seconds since the epoch of a timestamp (polars datetimes are a linear
count from the epoch; second resolution suffices for every parsed value). -/
def toEpoch (t : Timestamp) : Int :=
  daysFromCivil t.year t.month t.day * 86400 + t.hour * 3600 + t.minute * 60 + t.second

/-- polars `dt.weekday()`: Monday = 1 … Sunday = 7 (1970-01-01 was a Thursday). -/
def dtWeekday (t : Timestamp) : Int :=
  (daysFromCivil t.year t.month t.day + 3) % 7 + 1

example : daysFromCivil 1970 1 1 = 0 := by decide
example : daysFromCivil 2019 5 1 = 18017 := by decide
example : dtWeekday ⟨2019, 5, 1, 0, 0, 0⟩ = 3 := by decide

/-- A cell value of a polars DataFrame. -/
inductive Val where
  | null
  | int (n : Int)
  | float (q : Rat)
  | str (s : String)
  | dt (t : Timestamp)
deriving DecidableEq, Repr

deriving instance DecidableEq for Except

/-- polars `cast(pl.Utf8)` of a single value: null passes through; integers
render in decimal; a whole-valued float renders with a trailing `.0`.
Fractional floats and datetimes are outside the modelled fragment. -/
def castUtf8 (v : Val) : Except String (Option String) :=
  match v with
  | .null => .ok none
  | .int n => .ok (some (intToUtf8 n))
  | .str s => .ok (some s)
  | .float q =>
    if q.den = 1 then .ok (some (intToUtf8 q.num ++ ".0"))
    else .error "cast to Utf8: fractional float rendering not modelled"
  | .dt _ => .error "cast to Utf8: datetime rendering not modelled"

/-- `normalize_station_id` (transform.py): cast to Utf8, strip one trailing
`.0`, strict cast to Int64.  Null maps to null; a string that does not parse
as a decimal integer after the strip is a strict-cast error. -/
def normalize_station_id_val (v : Val) : Except String Val :=
  match castUtf8 v with
  | .error e => .error e
  | .ok none => .ok Val.null
  | .ok (some s) =>
    match parseIntChars (stripDotZero s.data) with
    | some n => .ok (Val.int n)
    | none => .error ("strict cast to Int64 failed: " ++ s)

theorem normalize_station_id_val_parse (s : String) :
    normalize_station_id_val (Val.str s) =
      match parseIntChars (stripDotZero s.data) with
      | some n => .ok (Val.int n)
      | none => .error ("strict cast to Int64 failed: " ++ s) := rfl

theorem normalize_station_id_val_strInt (n : Int) :
    normalize_station_id_val (Val.str (intToUtf8 n)) = .ok (Val.int n) := by
  rw [normalize_station_id_val_parse,
    stripDotZero_of_not_dot (dot_not_mem_intToUtf8 n), parseIntChars_intToUtf8]

theorem normalize_station_id_val_int (n : Int) :
    normalize_station_id_val (Val.int n) = .ok (Val.int n) := by
  have h : normalize_station_id_val (Val.int n) =
      normalize_station_id_val (Val.str (intToUtf8 n)) := rfl
  rw [h, normalize_station_id_val_strInt]

theorem normalize_station_id_val_strDotZero (n : Int) :
    normalize_station_id_val (Val.str (intToUtf8 n ++ ".0")) = .ok (Val.int n) := by
  rw [normalize_station_id_val_parse]
  have hdata : (intToUtf8 n ++ ".0").data = (intToUtf8 n).data ++ ['.', '0'] :=
    String.data_append _ _
  rw [hdata, stripDotZero_append, parseIntChars_intToUtf8]

/-- C4: the three representational forms of a station ID — native int,
string-of-int, and string-of-float-with-trailing-`.0` — all normalize to the
identical Int64 value; in particular `31000`, `"31000"` and `"31000.0"` all
yield the integer 31000. -/
theorem C4_station_id_three_forms_agree (n : Int) :
    normalize_station_id_val (Val.int n) = .ok (Val.int n) ∧
    normalize_station_id_val (Val.str (intToUtf8 n)) = .ok (Val.int n) ∧
    normalize_station_id_val (Val.str (intToUtf8 n ++ ".0")) = .ok (Val.int n) ∧
    normalize_station_id_val (Val.int 31000) = .ok (Val.int 31000) ∧
    normalize_station_id_val (Val.str "31000") = .ok (Val.int 31000) ∧
    normalize_station_id_val (Val.str "31000.0") = .ok (Val.int 31000) := by
  refine ⟨normalize_station_id_val_int n, normalize_station_id_val_strInt n,
    normalize_station_id_val_strDotZero n, ?_, ?_, ?_⟩ <;> decide

/-- C10: `normalize_station_id` maps a null input to a null output (an ID is
never fabricated), while a non-null input whose string form is not an integer
optionally followed by a single trailing `.0` — such as `"31000.5"` or the
alphanumeric `"CW31000"` — makes the strict Int64 cast fail with an error
rather than produce a value or a null. -/
theorem C10_station_id_null_and_strict_failure :
    normalize_station_id_val Val.null = .ok Val.null ∧
    (normalize_station_id_val (Val.str "31000.5")).isOk = false ∧
    (normalize_station_id_val (Val.str "CW31000")).isOk = false := by
  decide

/-! ## Timestamp parsing (`str.strptime`, non-strict) -/

/-- Parse `"YYYY-MM-DD HH:MM:SS"`; `none` for anything else (the non-strict
`str.strptime` turns such values into nulls). -/
def parseDatetime (s : String) : Option Timestamp :=
  match s.data with
  | [y1, y2, y3, y4, '-', b1, b2, '-', d1, d2, ' ', h1, h2, ':', i1, i2, ':', c1, c2] =>
    if [y1, y2, y3, y4, b1, b2, d1, d2, h1, h2, i1, i2, c1, c2].all Char.isDigit then
      let y : Nat := charVal y1 * 1000 + charVal y2 * 100 + charVal y3 * 10 + charVal y4
      let mo : Nat := charVal b1 * 10 + charVal b2
      let d : Nat := charVal d1 * 10 + charVal d2
      let h : Nat := charVal h1 * 10 + charVal h2
      let mi : Nat := charVal i1 * 10 + charVal i2
      let se : Nat := charVal c1 * 10 + charVal c2
      if 1 ≤ mo && mo ≤ 12 && 1 ≤ d && d ≤ 31 && h ≤ 23 && mi ≤ 59 && se ≤ 59 then
        some ⟨y, mo, d, h, mi, se⟩
      else none
    else none
  | _ => none

example : parseDatetime "2019-05-01 08:00:00" = some ⟨2019, 5, 1, 8, 0, 0⟩ := by decide

/-- `str.strptime(pl.Datetime, strict=False)` on one cell of a `Utf8` column:
nulls pass through, unparsable strings become null rather than raising; the
`str` namespace on a non-`Utf8` column is a schema error. -/
def strptimeVal (v : Val) : Except String Val :=
  match v with
  | .null => .ok .null
  | .str s => .ok ((parseDatetime s).elim Val.null Val.dt)
  | _ => .error "str.strptime applied to a non-Utf8 column"

/-- `dt.day()` of a parsed value (only datetimes and nulls reach it). -/
def dtDayVal (v : Val) : Val :=
  match v with
  | .dt t => .int t.day
  | _ => .null

/-- `dt.hour()` of a parsed value. -/
def dtHourVal (v : Val) : Val :=
  match v with
  | .dt t => .int t.hour
  | _ => .null

/-- `dt.weekday()` of a parsed value. -/
def dtWeekdayVal (v : Val) : Val :=
  match v with
  | .dt t => .int (dtWeekday t)
  | _ => .null

/-- `(ended_at - started_at).dt.total_seconds().cast(pl.Int64)` on one cell:
null operands give null. -/
def durationSecVal (ended started : Val) : Except String Val :=
  match ended, started with
  | .dt te, .dt ts => .ok (.int (toEpoch te - toEpoch ts))
  | .null, _ => .ok .null
  | _, .null => .ok .null
  | _, _ => .error "datetime subtraction on non-datetime values"

/-! ## DataFrame rows -/

/-- A DataFrame row: ordered association list of column name to value. -/
abbrev Row := List (String × Val)

def hasCol (r : Row) (c : String) : Bool := r.any (fun p => p.1 = c)

def lookupCol (r : Row) (c : String) : Option Val :=
  (r.find? (fun p => p.1 = c)).map (fun p => p.2)

def getCol (r : Row) (c : String) : Val := (lookupCol r c).getD Val.null

/-- `with_columns` on one column: replace in place if present, else append. -/
def setCol (r : Row) (c : String) (v : Val) : Row :=
  if hasCol r c then r.map (fun p => if p.1 = c then (c, v) else p) else r ++ [(c, v)]

/-- `df.rename {k: v for k, v in m.items() if k in df.columns}`: relabel the
columns that occur as keys of the mapping, keeping positions. -/
def renameCols {α : Type} (m : List (String × String)) (r : List (String × α)) :
    List (String × α) :=
  r.map (fun p =>
    match m.find? (fun q => q.1 = p.1) with
    | some q => (q.2, p.2)
    | none => p)

/-- transform.py `_PRE_RENAME`. -/
def preRenameMap : List (String × String) :=
  [("Start date", "started_at"),
   ("End date", "ended_at"),
   ("Start station", "start_station_name"),
   ("End station", "end_station_name"),
   ("Start station number", "start_station_id"),
   ("End station number", "end_station_id"),
   ("Bike number", "bike_number"),
   ("Member type", "member_type")]

/-- transform.py `_POST_RENAME`. -/
def postRenameMap : List (String × String) :=
  [("ride_id", "ride_id"),
   ("rideable_type", "rideable_type"),
   ("started_at", "started_at"),
   ("ended_at", "ended_at"),
   ("start_station_name", "start_station_name"),
   ("end_station_name", "end_station_name"),
   ("start_station_id", "start_station_id"),
   ("end_station_id", "end_station_id"),
   ("start_lat", "start_lat"),
   ("start_lng", "start_lng"),
   ("end_lat", "end_lat"),
   ("end_lng", "end_lng"),
   ("member_casual", "member_type")]

/-- transform.py `CANONICAL_COLUMNS`. -/
def CANONICAL_COLUMNS : List String :=
  ["ride_id", "rideable_type", "started_at", "ended_at", "duration_sec",
   "start_station_id", "start_station_name", "start_lat", "start_lng",
   "end_station_id", "end_station_name", "end_lat", "end_lng",
   "bike_number", "member_type", "day", "hour", "weekday"]

/-- Canonical columns filled as `Utf8` nulls when absent. -/
def utf8NullCols : List String :=
  ["ride_id", "rideable_type", "start_station_name", "end_station_name",
   "bike_number", "member_type"]

/-- Canonical columns filled as `Float64` nulls when absent. -/
def floatNullCols : List String := ["start_lat", "start_lng", "end_lat", "end_lng"]

/-- Canonical columns filled as `Datetime` nulls when absent. -/
def datetimeNullCols : List String := ["started_at", "ended_at"]

/-! ## `normalize_trip_schema`, one row at a time -/

/-- A row of the station dimension as selected for the coordinate joins
(`station_id`, `lat`, `lng`). -/
structure StationRow where
  station_id : Int
  lat : Option Rat
  lng : Option Rat
deriving DecidableEq, Repr

def optRatVal (q? : Option Rat) : Val :=
  match q? with
  | some q => .float q
  | none => .null

/-- The column a left join contributes: fresh name if absent from the left
side, the `_right`-suffixed name on a collision (polars default suffix). -/
def addJoinedCol (r : Row) (c : String) (v : Val) : Row :=
  if hasCol r c then r ++ [(c ++ "_right", v)] else r ++ [(c, v)]

/-- Left join of station coordinates onto the row by station ID.  A null or
unmatched ID contributes null coordinates; a missing join key is an error.
The dimension has one row per ID, so the first match is the match. -/
def joinStationCoords (stations : List StationRow) (idCol latCol lngCol : String)
    (r : Row) : Except String Row :=
  if hasCol r idCol then
    let mt := stations.find? (fun srow => Val.int srow.station_id = getCol r idCol)
    let latv := match mt with | some srow => optRatVal srow.lat | none => Val.null
    let lngv := match mt with | some srow => optRatVal srow.lng | none => Val.null
    .ok (addJoinedCol (addJoinedCol r latCol latv) lngCol lngv)
  else .error ("join key not found: " ++ idCol)

/-- Rename step: pre-style names if any are present, then post-style names. -/
def renameStage (r : Row) : Row :=
  let r1 := if preRenameMap.any (fun p => hasCol r p.1) then renameCols preRenameMap r else r
  renameCols postRenameMap r1

/-- Parse `started_at` in place and derive `day`/`hour`/`weekday` from the
parsed value, when the column is present. -/
def parseStartStage (r : Row) : Except String Row :=
  if hasCol r "started_at" then
    (strptimeVal (getCol r "started_at")).map (fun v =>
      setCol (setCol (setCol (setCol r "started_at" v) "day" (dtDayVal v))
        "hour" (dtHourVal v)) "weekday" (dtWeekdayVal v))
  else .ok r

/-- Parse `ended_at` in place, when the column is present. -/
def parseEndStage (r : Row) : Except String Row :=
  if hasCol r "ended_at" then
    (strptimeVal (getCol r "ended_at")).map (fun v => setCol r "ended_at" v)
  else .ok r

/-- Datetime-parsing step: parse `started_at` and derive `day`/`hour`/`weekday`
from it, then parse `ended_at`; each only when the column is present. -/
def parseDatesStage (r : Row) : Except String Row :=
  parseStartStage r >>= parseEndStage

/-- Duration step: derive `duration_sec` from `ended_at - started_at` only
when the column `duration_sec` is absent and both date columns are present. -/
def durationStage (r : Row) : Except String Row :=
  if !hasCol r "duration_sec" && hasCol r "started_at" && hasCol r "ended_at" then do
    let v ← durationSecVal (getCol r "ended_at") (getCol r "started_at")
    pure (setCol r "duration_sec" v)
  else pure r

/-- Normalize `start_station_id` in place, when present. -/
def idStartStage (r : Row) : Except String Row :=
  if hasCol r "start_station_id" then
    (normalize_station_id_val (getCol r "start_station_id")).map
      (fun v => setCol r "start_station_id" v)
  else .ok r

/-- Normalize `end_station_id` in place, when present. -/
def idEndStage (r : Row) : Except String Row :=
  if hasCol r "end_station_id" then
    (normalize_station_id_val (getCol r "end_station_id")).map
      (fun v => setCol r "end_station_id" v)
  else .ok r

/-- Station-ID normalization step, applied to each ID column present. -/
def idsStage (r : Row) : Except String Row :=
  idStartStage r >>= idEndStage

/-- The two coordinate joins against the station dimension. -/
def joinStage (stations : List StationRow) (r : Row) : Except String Row := do
  let r1 ← joinStationCoords stations "start_station_id" "start_lat" "start_lng" r
  joinStationCoords stations "end_station_id" "end_lat" "end_lng" r1

/-- One step of the fill loop: append a typed null for a canonical column
absent from the row, for exactly the groups the source enumerates. -/
def fillStep (acc : Row) (c : String) : Row :=
  if hasCol acc c then acc
  else if c ∈ utf8NullCols || c ∈ floatNullCols || c ∈ datetimeNullCols
      || c = "duration_sec" then
    acc ++ [(c, Val.null)]
  else acc

/-- Fill step over all canonical columns. -/
def fillMissingCols (r : Row) : Row := CANONICAL_COLUMNS.foldl fillStep r

/-- `df.select(cols)`: project to the listed columns in order; an absent
column is an error. -/
def selectCols (cols : List String) (r : Row) : Except String Row :=
  if cols.all (fun c => hasCol r c) then .ok (cols.map (fun c => (c, getCol r c)))
  else .error "column not found in select"

/-- `normalize_trip_schema` (transform.py) acting on one raw row. -/
def normalize_trip_schema_row (stations : List StationRow) (r : Row) :
    Except String Row := do
  let r1 := renameStage r
  let r2 ← parseDatesStage r1
  let r3 ← durationStage r2
  let r4 ← idsStage r3
  let r5 ← joinStage stations r4
  selectCols CANONICAL_COLUMNS (fillMissingCols r5)

/-! ## Column-preservation lemmas for `normalize_trip_schema` -/

theorem bind_eq_ok {α β : Type} {x : Except String α} {f : α → Except String β} {b : β}
    (h : x >>= f = .ok b) : ∃ a, x = .ok a ∧ f a = .ok b := by
  cases x with
  | error e => simp [Bind.bind, Except.bind] at h
  | ok a => exact ⟨a, rfl, by simpa [Bind.bind, Except.bind] using h⟩

theorem pure_eq_ok {α : Type} {a b : α}
    (h : (pure a : Except String α) = .ok b) : a = b := by
  simpa [pure, Except.pure] using h

theorem hasCol_of_lookup {r : Row} {c : String} {v : Val}
    (h : lookupCol r c = some v) : hasCol r c = true := by
  unfold lookupCol at h
  cases hf : r.find? (fun p => p.1 = c) with
  | none => rw [hf] at h; simp at h
  | some p =>
    have hp := List.find?_some hf
    have hmem := List.mem_of_find?_eq_some hf
    unfold hasCol
    rw [List.any_eq_true]
    exact ⟨p, hmem, hp⟩

theorem find?_map_setCol_ne (ps : List (String × Val)) (c c' : String) (v : Val)
    (h : c' ≠ c) :
    List.find? (fun p => p.1 = c') (ps.map (fun p => if p.1 = c then (c, v) else p)) =
      List.find? (fun p => p.1 = c') ps := by
  induction ps with
  | nil => rfl
  | cons p ps ih =>
    simp only [List.map_cons, List.find?]
    by_cases hp : p.1 = c
    · simp only [if_pos hp]
      have h1 : (decide ((c, v).1 = c')) = false := by
        simp [Ne.symm h]
      have h2 : (decide (p.1 = c')) = false := by
        simp [hp, Ne.symm h]
      rw [h1, h2]
      exact ih
    · simp only [if_neg hp]
      by_cases hc' : p.1 = c'
      · simp [hc']
      · have h3 : (decide (p.1 = c')) = false := by simp [hc']
        rw [h3]
        exact ih

theorem lookupCol_setCol_ne {r : Row} {c c' : String} {v : Val} (h : c' ≠ c) :
    lookupCol (setCol r c v) c' = lookupCol r c' := by
  unfold setCol
  split
  · unfold lookupCol
    rw [find?_map_setCol_ne r c c' v h]
  · unfold lookupCol
    rw [List.find?_append]
    cases hg : r.find? (fun p => p.1 = c') with
    | none => simp [Ne.symm h]
    | some q => simp

theorem lookupCol_append_single_ne {r : Row} {c c' : String} {v : Val} (h : c' ≠ c) :
    lookupCol (r ++ [(c, v)]) c' = lookupCol r c' := by
  unfold lookupCol
  rw [List.find?_append]
  cases hg : r.find? (fun p => p.1 = c') with
  | none => simp [Ne.symm h]
  | some q => simp

/-- Columns written by the datetime-parsing step. -/
def dateTouchedCols : List String := ["started_at", "ended_at", "day", "hour", "weekday"]

/-- Columns written by the station-ID normalization step. -/
def idTouchedCols : List String := ["start_station_id", "end_station_id"]

/-- Columns contributed by the coordinate joins. -/
def joinTouchedCols : List String :=
  ["start_lat", "start_lng", "end_lat", "end_lng",
   "start_lat_right", "start_lng_right", "end_lat_right", "end_lng_right"]

theorem map_eq_ok {α β : Type} {x : Except String α} {f : α → β} {b : β}
    (h : x.map f = .ok b) : ∃ a, x = .ok a ∧ f a = b := by
  cases x with
  | error e => simp [Except.map] at h
  | ok a => exact ⟨a, rfl, by simpa [Except.map] using h⟩

theorem parseStartStage_preserves {r r' : Row} {c : String}
    (h1 : c ≠ "started_at") (h2 : c ≠ "day") (h3 : c ≠ "hour") (h4 : c ≠ "weekday")
    (h : parseStartStage r = .ok r') :
    lookupCol r' c = lookupCol r c := by
  unfold parseStartStage at h
  split at h
  · obtain ⟨v, _, hf⟩ := map_eq_ok h
    subst hf
    rw [lookupCol_setCol_ne h4, lookupCol_setCol_ne h3, lookupCol_setCol_ne h2,
      lookupCol_setCol_ne h1]
  · simp only [Except.ok.injEq] at h
    subst h
    rfl

theorem parseEndStage_preserves {r r' : Row} {c : String}
    (h1 : c ≠ "ended_at") (h : parseEndStage r = .ok r') :
    lookupCol r' c = lookupCol r c := by
  unfold parseEndStage at h
  split at h
  · obtain ⟨v, _, hf⟩ := map_eq_ok h
    subst hf
    rw [lookupCol_setCol_ne h1]
  · simp only [Except.ok.injEq] at h
    subst h
    rfl

theorem parseDatesStage_preserves {r r' : Row} {c : String}
    (hc : c ∉ dateTouchedCols) (h : parseDatesStage r = .ok r') :
    lookupCol r' c = lookupCol r c := by
  have hc' : c ≠ "started_at" ∧ c ≠ "ended_at" ∧ c ≠ "day" ∧ c ≠ "hour" ∧
      c ≠ "weekday" := by simpa [dateTouchedCols] using hc
  unfold parseDatesStage at h
  obtain ⟨r1, h1, h2⟩ := bind_eq_ok h
  rw [parseEndStage_preserves hc'.2.1 h2,
    parseStartStage_preserves hc'.1 hc'.2.2.1 hc'.2.2.2.1 hc'.2.2.2.2 h1]

theorem durationStage_preserves {r r' : Row} {c : String} {v : Val}
    (hv : lookupCol r c = some v) (h : durationStage r = .ok r') :
    lookupCol r' c = some v := by
  unfold durationStage at h
  split at h
  · next hguard =>
    obtain ⟨d, _, hp⟩ := bind_eq_ok h
    have := pure_eq_ok hp
    subst this
    by_cases hcd : c = "duration_sec"
    · subst hcd
      exfalso
      rw [hasCol_of_lookup hv] at hguard
      simp at hguard
    · rw [lookupCol_setCol_ne hcd]
      exact hv
  · rw [← pure_eq_ok h]
    exact hv

theorem idStartStage_preserves {r r' : Row} {c : String}
    (h1 : c ≠ "start_station_id") (h : idStartStage r = .ok r') :
    lookupCol r' c = lookupCol r c := by
  unfold idStartStage at h
  split at h
  · obtain ⟨v, _, hf⟩ := map_eq_ok h
    subst hf
    rw [lookupCol_setCol_ne h1]
  · simp only [Except.ok.injEq] at h
    subst h
    rfl

theorem idEndStage_preserves {r r' : Row} {c : String}
    (h1 : c ≠ "end_station_id") (h : idEndStage r = .ok r') :
    lookupCol r' c = lookupCol r c := by
  unfold idEndStage at h
  split at h
  · obtain ⟨v, _, hf⟩ := map_eq_ok h
    subst hf
    rw [lookupCol_setCol_ne h1]
  · simp only [Except.ok.injEq] at h
    subst h
    rfl

theorem idsStage_preserves {r r' : Row} {c : String}
    (hc : c ∉ idTouchedCols) (h : idsStage r = .ok r') :
    lookupCol r' c = lookupCol r c := by
  have hc' : c ≠ "start_station_id" ∧ c ≠ "end_station_id" := by
    simpa [idTouchedCols] using hc
  unfold idsStage at h
  obtain ⟨r1, h1, h2⟩ := bind_eq_ok h
  rw [idEndStage_preserves hc'.2 h2, idStartStage_preserves hc'.1 h1]

theorem lookupCol_addJoinedCol_ne {r : Row} {c0 c : String} {v : Val}
    (h1 : c ≠ c0) (h2 : c ≠ c0 ++ "_right") :
    lookupCol (addJoinedCol r c0 v) c = lookupCol r c := by
  unfold addJoinedCol
  split
  · exact lookupCol_append_single_ne h2
  · exact lookupCol_append_single_ne h1

theorem joinStationCoords_preserves {st : List StationRow} {r r' : Row}
    {idc latc lngc c : String}
    (h1 : c ≠ latc) (h2 : c ≠ latc ++ "_right")
    (h3 : c ≠ lngc) (h4 : c ≠ lngc ++ "_right")
    (h : joinStationCoords st idc latc lngc r = .ok r') :
    lookupCol r' c = lookupCol r c := by
  unfold joinStationCoords at h
  split at h
  · simp only [Except.ok.injEq] at h
    subst h
    rw [lookupCol_addJoinedCol_ne h3 h4, lookupCol_addJoinedCol_ne h1 h2]
  · simp at h

theorem joinStage_preserves {st : List StationRow} {r r' : Row} {c : String}
    (hc : c ∉ joinTouchedCols) (h : joinStage st r = .ok r') :
    lookupCol r' c = lookupCol r c := by
  have hc' : c ≠ "start_lat" ∧ c ≠ "start_lng" ∧ c ≠ "end_lat" ∧ c ≠ "end_lng" ∧
      c ≠ "start_lat_right" ∧ c ≠ "start_lng_right" ∧ c ≠ "end_lat_right" ∧
      c ≠ "end_lng_right" := by simpa [joinTouchedCols] using hc
  unfold joinStage at h
  obtain ⟨r1, h1, h2⟩ := bind_eq_ok h
  have e2 : lookupCol r' c = lookupCol r1 c :=
    joinStationCoords_preserves hc'.2.2.1 hc'.2.2.2.2.2.2.1 hc'.2.2.2.1
      hc'.2.2.2.2.2.2.2 h2
  have e1 : lookupCol r1 c = lookupCol r c :=
    joinStationCoords_preserves hc'.1 hc'.2.2.2.2.1 hc'.2.1 hc'.2.2.2.2.2.1 h1
  rw [e2, e1]

theorem fillStep_preserves {acc : Row} {c0 c : String} {v : Val}
    (h : lookupCol acc c = some v) : lookupCol (fillStep acc c0) c = some v := by
  unfold fillStep
  split
  · exact h
  · next hhas =>
    split
    · have hne : c ≠ c0 := by
        intro he
        subst he
        exact hhas (hasCol_of_lookup h)
      rw [lookupCol_append_single_ne hne]
      exact h
    · exact h

theorem foldl_fillStep_preserves (cols : List String) :
    ∀ (acc : Row) (c : String) (v : Val), lookupCol acc c = some v →
      lookupCol (cols.foldl fillStep acc) c = some v := by
  induction cols with
  | nil => intro acc c v h; exact h
  | cons c0 rest ih =>
    intro acc c v h
    exact ih (fillStep acc c0) c v (fillStep_preserves h)

theorem find?_map_getCol {cols : List String} {c : String} (hmem : c ∈ cols) (r : Row) :
    List.find? (fun p => p.1 = c) (cols.map (fun c' => (c', getCol r c'))) =
      some (c, getCol r c) := by
  induction cols with
  | nil => cases hmem
  | cons c0 rest ih =>
    simp only [List.map_cons, List.find?]
    by_cases h0 : c0 = c
    · subst h0
      simp
    · have hd : (decide ((c0, getCol r c0).1 = c)) = false := by simp [h0]
      rw [hd]
      have hmem' : c ∈ rest := by
        rcases List.mem_cons.mp hmem with h | h
        · exact absurd h.symm h0
        · exact h
      exact ih hmem'

theorem selectCols_lookup {cols : List String} {r out : Row} {c : String}
    (h : selectCols cols r = .ok out) (hmem : c ∈ cols) :
    lookupCol out c = some (getCol r c) := by
  unfold selectCols at h
  split at h
  · simp only [Except.ok.injEq] at h
    subst h
    unfold lookupCol
    rw [find?_map_getCol hmem]
    rfl
  · simp at h

/-- Any canonical column not written by the parsing, ID-normalization or join
steps keeps a value it carries after the renames, all the way to the selected
output (`duration_sec` and `member_type` in particular). -/
theorem normalize_row_preserves {st : List StationRow} {r out : Row} {c : String}
    {v : Val}
    (hdate : c ∉ dateTouchedCols) (hid : c ∉ idTouchedCols)
    (hjoin : c ∉ joinTouchedCols) (hcanon : c ∈ CANONICAL_COLUMNS)
    (hv : lookupCol (renameStage r) c = some v)
    (hok : normalize_trip_schema_row st r = .ok out) :
    lookupCol out c = some v := by
  simp only [normalize_trip_schema_row] at hok
  obtain ⟨r2, h2, hok⟩ := bind_eq_ok hok
  obtain ⟨r3, h3, hok⟩ := bind_eq_ok hok
  obtain ⟨r4, h4, hok⟩ := bind_eq_ok hok
  obtain ⟨r5, h5, hok⟩ := bind_eq_ok hok
  have hv2 : lookupCol r2 c = some v := by
    rw [parseDatesStage_preserves hdate h2]; exact hv
  have hv3 : lookupCol r3 c = some v := durationStage_preserves hv2 h3
  have hv4 : lookupCol r4 c = some v := by
    rw [idsStage_preserves hid h4]; exact hv3
  have hv5 : lookupCol r5 c = some v := by
    rw [joinStage_preserves hjoin h5]; exact hv4
  have hvf : lookupCol (fillMissingCols r5) c = some v :=
    foldl_fillStep_preserves _ _ _ _ hv5
  rw [selectCols_lookup hok hcanon]
  unfold getCol
  rw [hvf]
  rfl

/-! ## Claims C1 and C2 -/

/-- A pre-2020 raw row supplying its duration under the raw column name
`"Duration"` (600 s) while its timestamps are 700 s apart. -/
def preDurationRow : Row :=
  [("Start date", .str "2019-05-01 08:00:00"),
   ("End date", .str "2019-05-01 08:11:40"),
   ("Start station number", .str "31000"),
   ("End station number", .str "31000"),
   ("Start station", .str "Eckington Pl and Q St NE"),
   ("End station", .str "Columbus Circle"),
   ("Bike number", .str "W20021"),
   ("Member type", .str "Member"),
   ("Duration", .int 600)]

/-- C1 counterexample: neither rename map carries the pre-2020 `"Duration"`
column, so on a raw row with `Duration = 600` and timestamps 700 s apart the
normalizer derives `duration_sec = 700` from `ended_at - started_at` and
drops the supplied column — the normalized duration is 700, not 600. -/
theorem C1_counterexample_pre_Duration_overwritten :
    (normalize_trip_schema_row [] preDurationRow).map
        (fun out => (lookupCol out "duration_sec", lookupCol out "Duration"))
      = .ok (some (Val.int 700), none) ∧ (Val.int 700 : Val) ≠ Val.int 600 := by
  decide

/-- C1 (amended): the non-overwrite guarantee holds exactly for a duration the
source supplies under the canonical column name `duration_sec`: whenever that
column is present after the renames, its value reaches the normalized output
untouched, and `ended_at - started_at` is never computed over it.  The
pre-2020 `"Duration"` column is not covered: it is dropped and the duration is
re-derived (see the counterexample). -/
theorem C1_amended_supplied_duration_sec_preserved
    {st : List StationRow} {r out : Row} {v : Val}
    (hv : lookupCol (renameStage r) "duration_sec" = some v)
    (hok : normalize_trip_schema_row st r = .ok out) :
    lookupCol out "duration_sec" = some v :=
  normalize_row_preserves (by decide) (by decide) (by decide) (by decide) hv hok

/-- A row that carries `duration_sec = 600` directly while its timestamps are
700 s apart. -/
def durationSuppliedRow : Row :=
  [("ride_id", .str "R1"),
   ("started_at", .str "2019-05-01 08:00:00"),
   ("ended_at", .str "2019-05-01 08:11:40"),
   ("start_station_id", .str "31000"),
   ("end_station_id", .str "31000"),
   ("duration_sec", .int 600)]

/-- The normalized output of `durationSuppliedRow`. -/
def durationSuppliedOut : Row :=
  (normalize_trip_schema_row [] durationSuppliedRow).toOption.getD []

theorem C1_amended_supplied_duration_sec_preserved_witness :
    lookupCol durationSuppliedOut "duration_sec" = some (Val.int 600) :=
  @C1_amended_supplied_duration_sec_preserved [] durationSuppliedRow
    durationSuppliedOut (Val.int 600) (by decide) (by decide)

/-- A pre-2020 raw row with membership value `"Subscriber"`. -/
def preSubscriberRow : Row :=
  [("Start date", .str "2019-05-01 08:00:00"),
   ("End date", .str "2019-05-01 08:11:40"),
   ("Start station number", .str "31000"),
   ("End station number", .str "31000"),
   ("Member type", .str "Subscriber")]

/-- C2 counterexample: the normalizer renames `Member type` to `member_type`
but never rewrites the values, so a raw row with `Member type = "Subscriber"`
normalizes to `member_type = "Subscriber"`, not to the claimed `"Member"`. -/
theorem C2_counterexample_subscriber_not_collapsed :
    (normalize_trip_schema_row [] preSubscriberRow).map
        (fun out => lookupCol out "member_type")
      = .ok (some (Val.str "Subscriber")) ∧
    (Val.str "Subscriber" : Val) ≠ Val.str "Member" := by
  decide

/-- C2 (amended): membership values pass through `normalize_trip_schema`
unchanged aside from the column rename (`Member type` / `member_casual` →
`member_type`); no vocabulary collapse of `"Registered"`/`"Subscriber"` to
`"Member"` occurs.  Whatever value sits in `member_type` after the renames is
the value of the normalized output. -/
theorem C2_amended_member_values_pass_through
    {st : List StationRow} {r out : Row} {v : Val}
    (hv : lookupCol (renameStage r) "member_type" = some v)
    (hok : normalize_trip_schema_row st r = .ok out) :
    lookupCol out "member_type" = some v :=
  normalize_row_preserves (by decide) (by decide) (by decide) (by decide) hv hok

/-- The normalized output of `preSubscriberRow`. -/
def preSubscriberOut : Row :=
  (normalize_trip_schema_row [] preSubscriberRow).toOption.getD []

theorem C2_amended_member_values_pass_through_witness :
    lookupCol preSubscriberOut "member_type" = some (Val.str "Subscriber") :=
  @C2_amended_member_values_pass_through [] preSubscriberRow
    preSubscriberOut (Val.str "Subscriber") (by decide) (by decide)

/-! ## Column dtypes and the schema-level normalizer (claim C7)

The same pipeline read at the level of column names and dtypes: polars
dtype errors are value-independent, so the schema function mirrors each
stage of `normalize_trip_schema` on `(name, dtype)` pairs. -/

/-- The polars dtypes the pipeline touches (`Int8` stands for the calendar
projections `dt.day`/`dt.hour`/`dt.weekday`). -/
inductive DType where
  | utf8
  | int64
  | float64
  | datetime
  | int8
deriving DecidableEq, Repr

/-- A DataFrame schema: ordered association list of column name to dtype. -/
abbrev Schema := List (String × DType)

def hasColS (s : Schema) (c : String) : Bool := s.any (fun p => p.1 = c)

def lookupColS (s : Schema) (c : String) : Option DType :=
  (s.find? (fun p => p.1 = c)).map (fun p => p.2)

def setColS (s : Schema) (c : String) (d : DType) : Schema :=
  if hasColS s c then s.map (fun p => if p.1 = c then (c, d) else p) else s ++ [(c, d)]

/-- Rename step on the schema. -/
def renameStageS (s : Schema) : Schema :=
  let s1 := if preRenameMap.any (fun p => hasColS s p.1) then renameCols preRenameMap s else s
  renameCols postRenameMap s1

/-- `str.strptime` on `started_at` plus the three calendar projections, on the
schema: requires a `Utf8` column. -/
def parseStartStageS (s : Schema) : Except String Schema :=
  if hasColS s "started_at" then
    match lookupColS s "started_at" with
    | some .utf8 =>
      .ok (setColS (setColS (setColS (setColS s "started_at" .datetime)
        "day" .int8) "hour" .int8) "weekday" .int8)
    | _ => .error "str.strptime applied to a non-Utf8 column"
  else .ok s

/-- `str.strptime` on `ended_at`, on the schema. -/
def parseEndStageS (s : Schema) : Except String Schema :=
  if hasColS s "ended_at" then
    match lookupColS s "ended_at" with
    | some .utf8 => .ok (setColS s "ended_at" .datetime)
    | _ => .error "str.strptime applied to a non-Utf8 column"
  else .ok s

/-- Duration derivation on the schema: only when `duration_sec` is absent and
both date columns are present (and are datetimes after parsing). -/
def durationStageS (s : Schema) : Except String Schema :=
  if !hasColS s "duration_sec" && hasColS s "started_at" && hasColS s "ended_at" then
    match lookupColS s "started_at", lookupColS s "ended_at" with
    | some .datetime, some .datetime => .ok (setColS s "duration_sec" .int64)
    | _, _ => .error "datetime subtraction on non-datetime columns"
  else .ok s

/-- The `normalize_station_id` cast chain on a dtype: any of `Utf8`, `Int64`,
`Float64` casts through to `Int64` (value-level failures aside); other dtypes
are schema errors. -/
def normalizeIdType (d : DType) : Except String DType :=
  match d with
  | .utf8 => .ok .int64
  | .int64 => .ok .int64
  | .float64 => .ok .int64
  | _ => .error "cannot cast this dtype to Int64"

/-- Station-ID normalization on the schema. -/
def idsStageS (s : Schema) : Except String Schema := do
  let s1 ←
    if hasColS s "start_station_id" then
      match lookupColS s "start_station_id" with
      | some d => (normalizeIdType d).map (fun d' => setColS s "start_station_id" d')
      | none => .error "missing column"
    else .ok s
  if hasColS s1 "end_station_id" then
    match lookupColS s1 "end_station_id" with
    | some d => (normalizeIdType d).map (fun d' => setColS s1 "end_station_id" d')
    | none => .error "missing column"
  else .ok s1

def addJoinedColS (s : Schema) (c : String) (d : DType) : Schema :=
  if hasColS s c then s ++ [(c ++ "_right", d)] else s ++ [(c, d)]

/-- One coordinate join on the schema: contributes two `Float64` columns. -/
def joinStationCoordsS (idCol latCol lngCol : String) (s : Schema) :
    Except String Schema :=
  if hasColS s idCol then
    .ok (addJoinedColS (addJoinedColS s latCol .float64) lngCol .float64)
  else .error ("join key not found: " ++ idCol)

/-- Both coordinate joins on the schema. -/
def joinStageS (s : Schema) : Except String Schema := do
  let s1 ← joinStationCoordsS "start_station_id" "start_lat" "start_lng" s
  joinStationCoordsS "end_station_id" "end_lat" "end_lng" s1

/-- Fill step on the schema: an absent canonical column of one of the four
enumerated groups is appended as an explicitly typed null column. -/
def fillStepS (acc : Schema) (c : String) : Schema :=
  if hasColS acc c then acc
  else if c ∈ utf8NullCols then acc ++ [(c, .utf8)]
  else if c ∈ floatNullCols then acc ++ [(c, .float64)]
  else if c ∈ datetimeNullCols then acc ++ [(c, .datetime)]
  else if c = "duration_sec" then acc ++ [(c, .int64)]
  else acc

/-- `df.select(CANONICAL_COLUMNS)` on the schema. -/
def selectColsS (cols : List String) (s : Schema) : Except String Schema :=
  if cols.all (fun c => hasColS s c) then
    .ok (cols.map (fun c => (c, (lookupColS s c).getD .utf8)))
  else .error "column not found in select"

/-- `normalize_trip_schema` read at the schema level. -/
def normalize_trip_schema_schema (s : Schema) : Except String Schema := do
  let s1 := renameStageS s
  let s2 ← parseStartStageS s1
  let s3 ← parseEndStageS s2
  let s4 ← durationStageS s3
  let s5 ← idsStageS s4
  let s6 ← joinStageS s5
  selectColsS CANONICAL_COLUMNS (CANONICAL_COLUMNS.foldl fillStepS s6)

/-- The schema of a pre-2020 raw CSV: textual columns, a numeric `Duration`,
and station-number columns whose inferred dtype varies by file. -/
def preSchema (d1 d2 : DType) : Schema :=
  [("Start date", .utf8),
   ("End date", .utf8),
   ("Start station", .utf8),
   ("End station", .utf8),
   ("Start station number", d1),
   ("End station number", d2),
   ("Bike number", .utf8),
   ("Member type", .utf8),
   ("Duration", .int64)]

/-- The schema of a post-2020 raw file: canonical names, textual dates,
float coordinates, and station-ID columns whose dtype varies by file. -/
def postSchema (d1 d2 : DType) : Schema :=
  [("ride_id", .utf8),
   ("rideable_type", .utf8),
   ("started_at", .utf8),
   ("ended_at", .utf8),
   ("start_station_name", .utf8),
   ("end_station_name", .utf8),
   ("start_station_id", d1),
   ("end_station_id", d2),
   ("start_lat", .float64),
   ("start_lng", .float64),
   ("end_lat", .float64),
   ("end_lng", .float64),
   ("member_casual", .utf8)]

/-- The canonical output schema: `CANONICAL_COLUMNS` with their types. -/
def canonicalSchema : Schema :=
  [("ride_id", .utf8),
   ("rideable_type", .utf8),
   ("started_at", .datetime),
   ("ended_at", .datetime),
   ("duration_sec", .int64),
   ("start_station_id", .int64),
   ("start_station_name", .utf8),
   ("start_lat", .float64),
   ("start_lng", .float64),
   ("end_station_id", .int64),
   ("end_station_name", .utf8),
   ("end_lat", .float64),
   ("end_lng", .float64),
   ("bike_number", .utf8),
   ("member_type", .utf8),
   ("day", .int8),
   ("hour", .int8),
   ("weekday", .int8)]

/-- C7: a pre-2020 file and a post-2020 file — whatever dtype their station-ID
columns were read with — normalize to literally the same schema: identical
column names, order and types, exactly `CANONICAL_COLUMNS`, with canonical
fields absent from the source present as explicitly typed null columns. -/
theorem C7_canonical_schema_uniformity (d1 d2 d3 d4 : DType)
    (h1 : d1 ∈ [DType.utf8, DType.int64, DType.float64])
    (h2 : d2 ∈ [DType.utf8, DType.int64, DType.float64])
    (h3 : d3 ∈ [DType.utf8, DType.int64, DType.float64])
    (h4 : d4 ∈ [DType.utf8, DType.int64, DType.float64]) :
    normalize_trip_schema_schema (preSchema d1 d2) = .ok canonicalSchema ∧
    normalize_trip_schema_schema (postSchema d3 d4) = .ok canonicalSchema ∧
    canonicalSchema.map Prod.fst = CANONICAL_COLUMNS := by
  fin_cases h1 <;> fin_cases h2 <;> fin_cases h3 <;> fin_cases h4 <;>
    exact ⟨by decide, by decide, by decide⟩

theorem C7_canonical_schema_uniformity_witness :
    normalize_trip_schema_schema (preSchema .utf8 .utf8) = .ok canonicalSchema ∧
    normalize_trip_schema_schema (postSchema .utf8 .utf8) = .ok canonicalSchema ∧
    canonicalSchema.map Prod.fst = CANONICAL_COLUMNS :=
  C7_canonical_schema_uniformity .utf8 .utf8 .utf8 .utf8
    (by decide) (by decide) (by decide) (by decide)

/-! ## `build_station_dimension` (stations.py) -/

/-- One start-role or end-role observation of a station. -/
structure Obs where
  station_id : Option Int
  station_name : Option String
  lat : Option Rat
  lng : Option Rat
  seen_at : Option Int
deriving DecidableEq, Repr

/-- A row of the station dimension table. -/
structure StationDimRow where
  station_id : Option Int
  station_name : Option String
  lat : Option Rat
  lng : Option Rat
  earliest_seen : Option Int
  latest_seen : Option Int
deriving DecidableEq, Repr

def getColE (r : Row) (c : String) : Except String Val :=
  match lookupCol r c with
  | some v => .ok v
  | none => .error ("column not found: " ++ c)

/-- A station-ID cell after `normalize_station_id`: null or an `Int64`. -/
def valToId (v : Val) : Except String (Option Int) :=
  match normalize_station_id_val v with
  | .ok .null => .ok none
  | .ok (.int n) => .ok (some n)
  | .ok _ => .error "normalize_station_id produced a non-integer"
  | .error e => .error e

def valToName (v : Val) : Except String (Option String) :=
  match v with
  | .null => .ok none
  | .str s => .ok (some s)
  | _ => .error "expected a Utf8 column"

def valToRat (v : Val) : Except String (Option Rat) :=
  match v with
  | .null => .ok none
  | .float q => .ok (some q)
  | .int n => .ok (some (n : Rat))
  | _ => .error "expected a Float64 column"

/-- `pl.col("started_at").cast(pl.Datetime)` on one cell; the linear datetime
value is its epoch second count. -/
def valToSeen (v : Val) : Except String (Option Int) :=
  match v with
  | .null => .ok none
  | .dt t => .ok (some (toEpoch t))
  | _ => .error "expected a Datetime column"

/-- The start-role observation of a trip row. -/
def startObs (r : Row) : Except String Obs := do
  let sid ← valToId (← getColE r "start_station_id")
  let nm ← valToName (← getColE r "start_station_name")
  let la ← valToRat (← getColE r "start_lat")
  let ln ← valToRat (← getColE r "start_lng")
  let se ← valToSeen (← getColE r "started_at")
  pure ⟨sid, nm, la, ln, se⟩

/-- The end-role observation of a trip row (`seen_at` is `started_at`, as in
the source). -/
def endObs (r : Row) : Except String Obs := do
  let sid ← valToId (← getColE r "end_station_id")
  let nm ← valToName (← getColE r "end_station_name")
  let la ← valToRat (← getColE r "end_lat")
  let ln ← valToRat (← getColE r "end_lng")
  let se ← valToSeen (← getColE r "started_at")
  pure ⟨sid, nm, la, ln, se⟩

/-- The vertical concatenation of start observations and end observations. -/
def observations (trips : List Row) : Except String (List Obs) := do
  let ss ← trips.mapM startObs
  let es ← trips.mapM endObs
  pure (ss ++ es)

def obsKey (o : Obs) : Option Int × Option String := (o.station_id, o.station_name)

/-- Rational addition written through `mkRat` (the generic `Rat.add` is not
reducible by evaluation; this normalized form is). -/
def ratAdd (a b : Rat) : Rat :=
  mkRat (a.num * (b.den : Int) + b.num * (a.den : Int)) (a.den * b.den)

/-- polars `mean`: null for an empty aggregation, the arithmetic mean
`sum / length` of the non-null values otherwise. -/
def meanOpt (l : List Rat) : Option Rat :=
  if l.length = 0 then none
  else
    let s := l.foldl ratAdd 0
    some (mkRat s.num (s.den * l.length))

/-- The aggregated row of one `(station_id, station_name)` group. -/
def mkGroup (obs : List Obs) (k : Option Int × Option String) : StationDimRow :=
  let g := obs.filter (fun o => obsKey o = k)
  { station_id := k.1
    station_name := k.2
    lat := meanOpt (g.filterMap (fun o => o.lat))
    lng := meanOpt (g.filterMap (fun o => o.lng))
    earliest_seen := (g.filterMap (fun o => o.seen_at)).min?
    latest_seen := (g.filterMap (fun o => o.seen_at)).max? }

/-- `group_by(["station_id", "station_name"]).agg(...)`: one aggregated row
per distinct key. -/
def groupRows (obs : List Obs) : List StationDimRow :=
  ((obs.map obsKey).dedup).map (mkGroup obs)

/-- Ascending comparison on nullable station IDs (nulls first). -/
def leOptIdB : Option Int → Option Int → Bool
  | none, _ => true
  | some _, none => false
  | some x, some y => x ≤ y

/-- `sort("station_id")`. -/
def sortIdRel (a b : StationDimRow) : Prop :=
  leOptIdB a.station_id b.station_id = true

/-- Descending comparison on nullable `latest_seen` (nulls first). -/
def geOptSeenB : Option Int → Option Int → Bool
  | none, _ => true
  | some _, none => false
  | some x, some y => y ≤ x

/-- `sort("latest_seen", descending=True)`. -/
def sortLatestRel (a b : StationDimRow) : Prop :=
  geOptSeenB a.latest_seen b.latest_seen = true

instance : DecidableRel sortIdRel := fun a b =>
  instDecidableEqBool (leOptIdB a.station_id b.station_id) true

instance : DecidableRel sortLatestRel := fun a b =>
  instDecidableEqBool (geOptSeenB a.latest_seen b.latest_seen) true

instance : IsTotal StationDimRow sortIdRel := by
  constructor
  intro a b
  unfold sortIdRel
  cases a.station_id <;> cases b.station_id <;> simp [leOptIdB] <;> omega

instance : IsTrans StationDimRow sortIdRel := by
  constructor
  intro a b c hab hbc
  unfold sortIdRel at *
  cases ha : a.station_id <;> cases hb : b.station_id <;> cases hc : c.station_id <;>
    rw [ha, hb] at hab <;> rw [hb, hc] at hbc <;> simp [leOptIdB] at * <;> omega

instance : IsTotal StationDimRow sortLatestRel := by
  constructor
  intro a b
  unfold sortLatestRel
  cases a.latest_seen <;> cases b.latest_seen <;> simp [geOptSeenB] <;> omega

instance : IsTrans StationDimRow sortLatestRel := by
  constructor
  intro a b c hab hbc
  unfold sortLatestRel at *
  cases ha : a.latest_seen <;> cases hb : b.latest_seen <;> cases hc : c.latest_seen <;>
    rw [ha, hb] at hab <;> rw [hb, hc] at hbc <;> simp [geOptSeenB] at * <;> omega

/-- `unique(subset="station_id", keep="first")`: keep each row whose
`station_id` has not been seen earlier in the list. -/
def uniqueFirstAux (seen : List (Option Int)) : List StationDimRow → List StationDimRow
  | [] => []
  | r :: rs =>
    if r.station_id ∈ seen then uniqueFirstAux seen rs
    else r :: uniqueFirstAux (r.station_id :: seen) rs

def uniqueFirstById (l : List StationDimRow) : List StationDimRow := uniqueFirstAux [] l

/-- `build_station_dimension` (stations.py): union the two observation roles,
drop null IDs, aggregate per `(station_id, station_name)`, sort by ID and then
by `latest_seen` descending, and keep the first row per ID.  The source's
dtype assert on `station_id` holds by construction in the embedding (IDs are
`Int64` values). -/
def build_station_dimension (trips : List Row) : Except String (List StationDimRow) := do
  let obs ← observations trips
  let v := obs.filter (fun o => o.station_id.isSome)
  let gs := groupRows v
  let sorted1 := List.insertionSort sortIdRel gs
  let sorted2 := List.insertionSort sortLatestRel sorted1
  pure (uniqueFirstById sorted2)

theorem geOptSeenB_refl (x : Option Int) : geOptSeenB x x = true := by
  cases x <;> simp [geOptSeenB]

theorem uniqueFirstAux_mem :
    ∀ (l : List StationDimRow) (seen : List (Option Int)) (r : StationDimRow),
      r ∈ uniqueFirstAux seen l → r ∈ l ∧ r.station_id ∉ seen := by
  intro l
  induction l with
  | nil => intro seen r h; simp [uniqueFirstAux] at h
  | cons x xs ih =>
    intro seen r h
    unfold uniqueFirstAux at h
    split at h
    · have := ih seen r h
      exact ⟨List.mem_cons_of_mem _ this.1, this.2⟩
    · next hx =>
      rcases List.mem_cons.mp h with rfl | hmem
      · exact ⟨List.mem_cons_self _ _, hx⟩
      · have := ih _ r hmem
        exact ⟨List.mem_cons_of_mem _ this.1,
          fun hseen => this.2 (List.mem_cons_of_mem _ hseen)⟩

theorem uniqueFirstAux_pairwise :
    ∀ (l : List StationDimRow) (seen : List (Option Int)),
      List.Pairwise (fun a b => a.station_id ≠ b.station_id) (uniqueFirstAux seen l) := by
  intro l
  induction l with
  | nil => intro seen; simp [uniqueFirstAux]
  | cons x xs ih =>
    intro seen
    unfold uniqueFirstAux
    split
    · exact ih seen
    · refine List.Pairwise.cons (fun b hb heq => ?_) (ih _)
      have := (uniqueFirstAux_mem xs _ b hb).2
      exact this (heq ▸ List.mem_cons_self _ _)

theorem uniqueFirstAux_ids :
    ∀ (l : List StationDimRow) (seen : List (Option Int)) (i : Option Int),
      (∃ r ∈ uniqueFirstAux seen l, r.station_id = i) ↔
        ((∃ r ∈ l, r.station_id = i) ∧ i ∉ seen) := by
  intro l
  induction l with
  | nil => intro seen i; simp [uniqueFirstAux]
  | cons x xs ih =>
    intro seen i
    unfold uniqueFirstAux
    split
    · next hx =>
      rw [ih]
      constructor
      · rintro ⟨⟨r, hr, hri⟩, hni⟩
        exact ⟨⟨r, List.mem_cons_of_mem _ hr, hri⟩, hni⟩
      · rintro ⟨⟨r, hr, hri⟩, hni⟩
        rcases List.mem_cons.mp hr with rfl | hmem
        · exact absurd (hri ▸ hx) hni
        · exact ⟨⟨r, hmem, hri⟩, hni⟩
    · next hx =>
      constructor
      · rintro ⟨r, hr, hri⟩
        rcases List.mem_cons.mp hr with rfl | hmem
        · exact ⟨⟨r, List.mem_cons_self _ _, hri⟩, hri ▸ hx⟩
        · obtain ⟨⟨r', hr', hri'⟩, hni⟩ := (ih _ i).mp ⟨r, hmem, hri⟩
          exact ⟨⟨r', List.mem_cons_of_mem _ hr', hri'⟩,
            fun hs => hni (List.mem_cons_of_mem _ hs)⟩
      · rintro ⟨⟨r, hr, hri⟩, hni⟩
        rcases List.mem_cons.mp hr with rfl | hmem
        · exact ⟨r, List.mem_cons_self _ _, hri⟩
        · by_cases hix : i = x.station_id
          · exact ⟨x, List.mem_cons_self _ _, hix.symm⟩
          · obtain ⟨r', hr', hri'⟩ := (ih (x.station_id :: seen) i).mpr
              ⟨⟨r, hmem, hri⟩, by
                intro hs
                rcases List.mem_cons.mp hs with h | h
                · exact hix h
                · exact hni h⟩
            exact ⟨r', List.mem_cons_of_mem _ hr', hri'⟩

theorem uniqueFirstAux_max_latest :
    ∀ (l : List StationDimRow) (seen : List (Option Int)),
      List.Pairwise sortLatestRel l →
      ∀ r ∈ uniqueFirstAux seen l, ∀ g ∈ l, g.station_id = r.station_id →
        geOptSeenB r.latest_seen g.latest_seen = true := by
  intro l
  induction l with
  | nil => intro seen _ r hr; simp [uniqueFirstAux] at hr
  | cons x xs ih =>
    intro seen hsort r hr g hg hid
    have hx_rel := List.pairwise_cons.mp hsort
    unfold uniqueFirstAux at hr
    split at hr
    · next hxseen =>
      rcases List.mem_cons.mp hg with rfl | hgmem
      · have hnr := (uniqueFirstAux_mem xs seen r hr).2
        exact absurd (hid ▸ hxseen) hnr
      · exact ih seen hx_rel.2 r hr g hgmem hid
    · next hxseen =>
      rcases List.mem_cons.mp hr with rfl | hrmem
      · rcases List.mem_cons.mp hg with rfl | hgmem
        · exact geOptSeenB_refl _
        · exact hx_rel.1 g hgmem
      · have hnr := (uniqueFirstAux_mem xs _ r hrmem).2
        rcases List.mem_cons.mp hg with rfl | hgmem
        · exact absurd (hid ▸ List.mem_cons_self g.station_id seen) hnr
        · exact ih _ hx_rel.2 r hrmem g hgmem hid

theorem groupRows_mem_ids {v : List Obs} {i : Option Int} :
    (∃ r ∈ groupRows v, r.station_id = i) ↔ ∃ o ∈ v, o.station_id = i := by
  unfold groupRows
  constructor
  · rintro ⟨r, hr, hri⟩
    rw [List.mem_map] at hr
    obtain ⟨k, hk, rfl⟩ := hr
    rw [List.mem_dedup, List.mem_map] at hk
    obtain ⟨o, ho, rfl⟩ := hk
    exact ⟨o, ho, hri⟩
  · rintro ⟨o, ho, hoi⟩
    exact ⟨mkGroup v (obsKey o),
      List.mem_map.mpr ⟨obsKey o,
        List.mem_dedup.mpr (List.mem_map.mpr ⟨o, ho, rfl⟩), rfl⟩, hoi⟩

theorem groupRows_id_isSome {v : List Obs}
    (hv : ∀ o ∈ v, o.station_id.isSome = true) :
    ∀ r ∈ groupRows v, r.station_id.isSome = true := by
  intro r hr
  unfold groupRows at hr
  rw [List.mem_map] at hr
  obtain ⟨k, hk, rfl⟩ := hr
  rw [List.mem_dedup, List.mem_map] at hk
  obtain ⟨o, ho, rfl⟩ := hk
  exact hv o ho

theorem build_station_dimension_eq {trips : List Row} {obs : List Obs}
    {out : List StationDimRow}
    (hobs : observations trips = .ok obs)
    (hout : build_station_dimension trips = .ok out) :
    out = uniqueFirstById (List.insertionSort sortLatestRel
      (List.insertionSort sortIdRel
        (groupRows (obs.filter (fun o => o.station_id.isSome))))) := by
  unfold build_station_dimension at hout
  obtain ⟨obs', hobs', hrest⟩ := bind_eq_ok hout
  rw [hobs] at hobs'
  have heq : obs = obs' := by injection hobs'
  subst heq
  exact (pure_eq_ok hrest).symm

theorem mem_out_mem_groups {trips : List Row} {obs : List Obs}
    {out : List StationDimRow}
    (hobs : observations trips = .ok obs)
    (hout : build_station_dimension trips = .ok out) :
    ∀ r ∈ out, r ∈ groupRows (obs.filter (fun o => o.station_id.isSome)) := by
  intro r hr
  rw [build_station_dimension_eq hobs hout] at hr
  have h2 := (uniqueFirstAux_mem _ _ _ hr).1
  have h3 := (List.perm_insertionSort sortLatestRel _).mem_iff.mp h2
  exact (List.perm_insertionSort sortIdRel _).mem_iff.mp h3

/-- C5: the station dimension has exactly one row per distinct non-null
station ID — IDs are pairwise distinct, non-null, and are exactly the IDs
observed in the corpus — and each retained row is one of the
`(station_id, station_name)` group rows, the one whose `latest_seen` is
maximal among all groups of that ID (so an ID observed under two names keeps
the most recently seen name). -/
theorem C5_one_row_per_station_latest_name
    {trips : List Row} {obs : List Obs} {out : List StationDimRow}
    (hobs : observations trips = .ok obs)
    (hout : build_station_dimension trips = .ok out) :
    List.Pairwise (fun a b => a.station_id ≠ b.station_id) out ∧
    (∀ r ∈ out, r.station_id.isSome = true) ∧
    (∀ i : Int, (∃ r ∈ out, r.station_id = some i) ↔
      ∃ o ∈ obs, o.station_id = some i) ∧
    (∀ r ∈ out, r ∈ groupRows (obs.filter (fun o => o.station_id.isSome))) ∧
    (∀ r ∈ out, ∀ g ∈ groupRows (obs.filter (fun o => o.station_id.isSome)),
      g.station_id = r.station_id →
        geOptSeenB r.latest_seen g.latest_seen = true) := by
  have heq := build_station_dimension_eq hobs hout
  refine ⟨?_, ?_, ?_, mem_out_mem_groups hobs hout, ?_⟩
  · rw [heq]
    exact uniqueFirstAux_pairwise _ _
  · intro r hr
    have hg := mem_out_mem_groups hobs hout r hr
    refine groupRows_id_isSome ?_ r hg
    intro o ho
    exact (List.mem_filter.mp ho).2
  · intro i
    rw [heq]
    unfold uniqueFirstById
    rw [uniqueFirstAux_ids]
    constructor
    · rintro ⟨⟨r, hr, hri⟩, -⟩
      have h3 := (List.perm_insertionSort sortLatestRel _).mem_iff.mp hr
      have h4 := (List.perm_insertionSort sortIdRel _).mem_iff.mp h3
      obtain ⟨o, ho, hoi⟩ := groupRows_mem_ids.mp ⟨r, h4, hri⟩
      exact ⟨o, (List.mem_filter.mp ho).1, hoi⟩
    · rintro ⟨o, ho, hoi⟩
      have hov : o ∈ obs.filter (fun o => o.station_id.isSome) :=
        List.mem_filter.mpr ⟨ho, by rw [hoi]; rfl⟩
      obtain ⟨r, hr, hri⟩ := groupRows_mem_ids.mpr ⟨o, hov, hoi⟩
      have h3 := (List.perm_insertionSort sortIdRel _).mem_iff.mpr hr
      have h4 := (List.perm_insertionSort sortLatestRel _).mem_iff.mpr h3
      exact ⟨⟨r, h4, hri⟩, by simp⟩
  · intro r hr g hg hid
    rw [heq] at hr
    have hsorted : List.Pairwise sortLatestRel
        (List.insertionSort sortLatestRel (List.insertionSort sortIdRel
          (groupRows (obs.filter (fun o => o.station_id.isSome))))) :=
      List.sorted_insertionSort sortLatestRel _
    have hg2 := (List.perm_insertionSort sortIdRel _).mem_iff.mpr hg
    have hg3 := (List.perm_insertionSort sortLatestRel _).mem_iff.mpr hg2
    exact uniqueFirstAux_max_latest _ _ hsorted r hr g hg3 hid

/-- Trips touching station ID 31000 under two names, the second seen later. -/
def renameTripA : Row :=
  [("start_station_id", .str "31000"), ("start_station_name", .str "Eckington Pl and Q St NE"),
   ("start_lat", .float 10), ("start_lng", .float 0),
   ("end_station_id", .null), ("end_station_name", .null),
   ("end_lat", .null), ("end_lng", .null),
   ("started_at", .dt ⟨2020, 1, 1, 0, 0, 0⟩)]

def renameTripB : Row :=
  [("start_station_id", .str "31000"), ("start_station_name", .str "Eckington Pl and Harry Thomas Way"),
   ("start_lat", .float 20), ("start_lng", .float 0),
   ("end_station_id", .null), ("end_station_name", .null),
   ("end_lat", .null), ("end_lng", .null),
   ("started_at", .dt ⟨2021, 1, 1, 0, 0, 0⟩)]

/-- The observations and dimension of the two-name corpus. -/
def renameObs : List Obs := (observations [renameTripA, renameTripB]).toOption.getD []

def renameDim : List StationDimRow :=
  (build_station_dimension [renameTripA, renameTripB]).toOption.getD []

theorem C5_one_row_per_station_latest_name_witness :
    List.Pairwise (fun a b => a.station_id ≠ b.station_id) renameDim ∧
    (∀ r ∈ renameDim, r.station_id.isSome = true) ∧
    (∀ i : Int, (∃ r ∈ renameDim, r.station_id = some i) ↔
      ∃ o ∈ renameObs, o.station_id = some i) ∧
    (∀ r ∈ renameDim, r ∈ groupRows (renameObs.filter (fun o => o.station_id.isSome))) ∧
    (∀ r ∈ renameDim, ∀ g ∈ groupRows (renameObs.filter (fun o => o.station_id.isSome)),
      g.station_id = r.station_id →
        geOptSeenB r.latest_seen g.latest_seen = true) :=
  @C5_one_row_per_station_latest_name [renameTripA, renameTripB] renameObs
    renameDim (by decide) (by decide)

theorem groupRows_coords {v : List Obs} {r : StationDimRow} (hr : r ∈ groupRows v) :
    r.lat = meanOpt ((v.filter (fun o =>
        obsKey o = (r.station_id, r.station_name))).filterMap (fun o => o.lat)) ∧
    r.lng = meanOpt ((v.filter (fun o =>
        obsKey o = (r.station_id, r.station_name))).filterMap (fun o => o.lng)) := by
  unfold groupRows at hr
  rw [List.mem_map] at hr
  obtain ⟨k, _, rfl⟩ := hr
  exact ⟨rfl, rfl⟩

/-- The coordinate the spec describes for a station: the mean of all observed
start/end coordinates carrying that ID across the whole corpus, regardless of
which station name each observation carried (stated from the spec's words,
for comparison with the per-name group mean the code computes). -/
def specMeanLatForId (trips : List Row) (i : Int) : Except String (Option Rat) := do
  let obs ← observations trips
  pure (meanOpt ((obs.filter (fun o => o.station_id = some i)).filterMap
    (fun o => o.lat)))

/-- C6 counterexample: station ID 31000 is observed under name "…Q St NE" at
latitude 10 and later under name "…Harry Thomas Way" at latitude 20.  The mean
over all observations of the ID is 15, but the dimension row retains latitude
20 — the mean of the retained `(station_id, station_name)` group only. -/
theorem C6_counterexample_mean_is_per_name_group :
    (build_station_dimension [renameTripA, renameTripB]).map
        (fun out => out.map (fun r => (r.station_id, r.station_name, r.lat)))
      = .ok [(some 31000, some "Eckington Pl and Harry Thomas Way", some 20)] ∧
    specMeanLatForId [renameTripA, renameTripB] 31000 = .ok (some 15) ∧
    (some (20 : Rat) : Option Rat) ≠ some 15 := by
  decide

/-- C6 (amended): the `lat`/`lng` of a dimension row are the mean of the
observed coordinates of its own `(station_id, station_name)` group — the
observations of that ID that carried the retained name — not of all
observations of the ID (see the counterexample for an ID seen under two
names). -/
theorem C6_amended_mean_within_retained_group
    {trips : List Row} {obs : List Obs} {out : List StationDimRow}
    (hobs : observations trips = .ok obs)
    (hout : build_station_dimension trips = .ok out) :
    ∀ r ∈ out,
      r.lat = meanOpt (((obs.filter (fun o => o.station_id.isSome)).filter
        (fun o => obsKey o = (r.station_id, r.station_name))).filterMap
          (fun o => o.lat)) ∧
      r.lng = meanOpt (((obs.filter (fun o => o.station_id.isSome)).filter
        (fun o => obsKey o = (r.station_id, r.station_name))).filterMap
          (fun o => o.lng)) := by
  intro r hr
  exact groupRows_coords (mem_out_mem_groups hobs hout r hr)

/-- The single dimension row the two-name corpus produces. -/
def renameDimRow : StationDimRow :=
  renameDim.headD ⟨none, none, none, none, none, none⟩

theorem C6_amended_mean_within_retained_group_witness :
    renameDimRow.lat = meanOpt (((renameObs.filter
        (fun o => o.station_id.isSome)).filter
      (fun o => obsKey o = (renameDimRow.station_id,
        renameDimRow.station_name))).filterMap (fun o => o.lat)) ∧
    renameDimRow.lng = meanOpt (((renameObs.filter
        (fun o => o.station_id.isSome)).filter
      (fun o => obsKey o = (renameDimRow.station_id,
        renameDimRow.station_name))).filterMap (fun o => o.lng)) :=
  @C6_amended_mean_within_retained_group [renameTripA, renameTripB] renameObs
    renameDim (by decide) (by decide) renameDimRow (by decide)

/-! ## `build_master_table` (ingest.py)

The S3 side effects of the driver — reading a raw object, normalizing it,
writing a monthly partition, writing the station dimension — are modelled as
an explicit trace; the destination store is the map from `(year, month)` to
the partition object's content. -/

/-- A raw object in the source bucket. -/
structure RawFile where
  key : String
  rows : List Row
deriving DecidableEq, Repr

/-- The destination store: the materialized master partitions. -/
structure Store where
  parts : List ((Int × Int) × List Row)
deriving DecidableEq, Repr

/-- One observable side effect of a build run. -/
inductive Effect where
  | readRaw (key : String)
  | normalized (key : String)
  | writePartition (ym : Int × Int) (rows : List Row)
  | writeStations (dim : List StationDimRow)
deriving DecidableEq, Repr

/-- The classification `_key_kind` assigns to a raw key. -/
inductive KeyKind where
  | monthly (y m : Int)
  | bulk (y : Int)
  | ignore
deriving DecidableEq, Repr

/-- The characters after the last `/`: `key.split("/")[-1]`. -/
def afterLastSlash (l : List Char) : List Char :=
  (l.reverse.takeWhile (fun c => c ≠ '/')).reverse

/-- Remove every non-overlapping left-to-right occurrence of `pat` (Python
`str.replace(pat, "")`); the fuel is the scanned length. -/
def stripOccAux (pat : List Char) : Nat → List Char → List Char
  | 0, l => l
  | _ + 1, [] => []
  | fuel + 1, c :: cs =>
    if pat.isPrefixOf (c :: cs) then stripOccAux pat fuel ((c :: cs).drop pat.length)
    else c :: stripOccAux pat fuel cs

/-- `key.split("/")[-1]` then strip the two extensions (Python `str.replace`
removes every occurrence). -/
def fileStem (key : String) : String :=
  let name := afterLastSlash key.data
  let n1 := stripOccAux ".csv".data name.length name
  ⟨stripOccAux ".parquet".data n1.length n1⟩

/-- Python `str.isdigit` on ASCII content. -/
def isDigitsStr (s : String) : Bool := !s.data.isEmpty && s.data.all Char.isDigit

/-- `_key_kind` (ingest.py): 6-digit stems are monthly files, 4-digit stems
are yearly bulk files, anything else is ignored. -/
def keyKind (key : String) : KeyKind :=
  let stem := fileStem key
  if isDigitsStr stem ∧ stem.data.length = 6 then
    .monthly ((parseNatChars (stem.data.take 4)).getD 0 : Nat)
      ((parseNatChars ((stem.data.drop 4).take 2)).getD 0 : Nat)
  else if isDigitsStr stem ∧ stem.data.length = 4 then
    .bulk ((parseNatChars stem.data).getD 0 : Nat)
  else .ignore

example : keyKind "201501.csv" = .monthly 2015 1 := by decide
example : keyKind "2015.parquet" = .bulk 2015 := by decide
example : keyKind "index.html" = .ignore := by decide

/-- `key.endswith(suffix)`. -/
def strEndsWith (s suffix : String) : Bool :=
  suffix.data.reverse.isPrefixOf s.data.reverse

/-- `normalize_trip_schema` over a whole raw file. -/
def normalizeFile (stations : List StationRow) (f : RawFile) :
    Except String (List Row) :=
  f.rows.mapM (normalize_trip_schema_row stations)

/-- The `(started_at.year, started_at.month)` partition key of a normalized
row.  Polars cannot order a null month group against integer ones (and the
path template cannot hold one), so a null `started_at` is an error here. -/
def rowYearMonth (r : Row) : Except String (Int × Int) :=
  match lookupCol r "started_at" with
  | some (.dt t) => .ok (t.year, t.month)
  | some _ => .error "started_at is not a datetime in bulk partition split"
  | none => .error "column not found: started_at"

/-- Ascending order on `(year, month)` keys. -/
def pairLeB (a b : Int × Int) : Bool := a.1 < b.1 || (a.1 == b.1 && a.2 ≤ b.2)

def pairLeRel (a b : Int × Int) : Prop := pairLeB a b = true

instance : DecidableRel pairLeRel := fun a b =>
  instDecidableEqBool (pairLeB a b) true

instance : IsTotal (Int × Int) pairLeRel := by
  constructor
  intro a b
  unfold pairLeRel pairLeB
  rcases a with ⟨a1, a2⟩
  rcases b with ⟨b1, b2⟩
  simp
  omega

instance : IsTrans (Int × Int) pairLeRel := by
  constructor
  intro a b c hab hbc
  unfold pairLeRel pairLeB at *
  rcases a with ⟨a1, a2⟩
  rcases b with ⟨b1, b2⟩
  rcases c with ⟨c1, c2⟩
  simp at *
  omega

/-- `sorted(partitions.items())`: the distinct `(year, month)` keys of the
bulk file, ascending. -/
def bulkKeys (df : List Row) : Except String (List (Int × Int)) :=
  (df.mapM rowYearMonth).map (fun ks => List.insertionSort pairLeRel ks.dedup)

def partsKeys (s : Store) : List (Int × Int) := s.parts.map Prod.fst

def lookupPart (s : Store) (k : Int × Int) : Option (List Row) :=
  (s.parts.find? (fun p => p.1 = k)).map (fun p => p.2)

/-- Write one partition object, replacing any prior content for that key. -/
def putPart (s : Store) (k : Int × Int) (rows : List Row) : Store :=
  if s.parts.any (fun p => p.1 = k) then
    ⟨s.parts.map (fun p => if p.1 = k then (k, rows) else p)⟩
  else ⟨s.parts ++ [(k, rows)]⟩

/-- The per-month write loop over a bulk file's sorted keys: skip a key that
is already materialized (in missing-months mode), write the month's rows
otherwise. -/
def processBulkKeys (missing : Bool) (already : List (Int × Int)) (df : List Row) :
    List (Int × Int) → Store → Store × List Effect
  | [], s => (s, [])
  | k :: rest, s =>
    if missing ∧ k ∈ already then processBulkKeys missing already df rest s
    else
      let rows := df.filter (fun r => rowYearMonth r = .ok k)
      let p := processBulkKeys missing already df rest (putPart s k rows)
      (p.1, .writePartition k rows :: p.2)

/-- Processing of one classified raw file: the read and the normalization
happen before the monthly skip check, exactly as in the source. -/
def processFile (stations : List StationRow) (missing : Bool)
    (already : List (Int × Int)) (f : RawFile) (s : Store) :
    Except String (Store × List Effect) :=
  match keyKind f.key with
  | .ignore => .ok (s, [])
  | .monthly y m =>
    (normalizeFile stations f).bind (fun df =>
      if missing ∧ (y, m) ∈ already then
        .ok (s, [.readRaw f.key, .normalized f.key])
      else
        .ok (putPart s (y, m) df,
          [.readRaw f.key, .normalized f.key, .writePartition (y, m) df]))
  | .bulk _ =>
    (normalizeFile stations f).bind (fun df =>
      (bulkKeys df).map (fun ks =>
        let p := processBulkKeys missing already df ks s
        (p.1, .readRaw f.key :: .normalized f.key :: p.2)))

/-- Sequential processing of the sorted raw files. -/
def processFiles (stations : List StationRow) (missing : Bool)
    (already : List (Int × Int)) :
    List RawFile → Store → Except String (Store × List Effect)
  | [], s => .ok (s, [])
  | f :: fs, s =>
    (processFile stations missing already f s).bind (fun p =>
      (processFiles stations missing already fs p.1).map
        (fun q => (q.1, p.2 ++ q.2)))

/-- The scan of every materialized partition for the dimension rebuild. -/
def allRows (s : Store) : List Row := s.parts.foldr (fun p acc => p.2 ++ acc) []

/-- Lexicographic (code-point) comparison of two key strings, as Python
`sorted` compares them. -/
def keyLeB : List Char → List Char → Bool
  | [], _ => true
  | _ :: _, [] => false
  | c :: cs, d :: ds =>
    if c.toNat < d.toNat then true
    else if d.toNat < c.toNat then false
    else keyLeB cs ds

/-- Order of `sorted(raw_keys)`. -/
def fileLeRel (a b : RawFile) : Prop := keyLeB a.key.data b.key.data = true

instance : DecidableRel fileLeRel := fun a b =>
  instDecidableEqBool (keyLeB a.key.data b.key.data) true

theorem keyLeB_cons_iff {c d : Char} {cs ds : List Char} :
    keyLeB (c :: cs) (d :: ds) = true ↔
      (c.toNat < d.toNat ∨ (c.toNat = d.toNat ∧ keyLeB cs ds = true)) := by
  simp only [keyLeB]
  rcases Nat.lt_trichotomy c.toNat d.toNat with h | h | h
  · rw [if_pos h]
    simp [h]
  · rw [if_neg (by omega), if_neg (by omega)]
    constructor
    · intro hh
      exact Or.inr ⟨h, hh⟩
    · rintro (hh | ⟨-, hh⟩)
      · omega
      · exact hh
  · rw [if_neg (by omega), if_pos h]
    constructor
    · intro hh
      exact absurd hh (by simp)
    · rintro (hh | ⟨hh, -⟩) <;> omega

theorem keyLeB_total : ∀ a b : List Char, keyLeB a b = true ∨ keyLeB b a = true := by
  intro a
  induction a with
  | nil => intro b; left; rfl
  | cons c cs ih =>
    intro b
    cases b with
    | nil => right; rfl
    | cons d ds =>
      rcases Nat.lt_trichotomy c.toNat d.toNat with h | h | h
      · exact Or.inl (keyLeB_cons_iff.mpr (Or.inl h))
      · rcases ih ds with hh | hh
        · exact Or.inl (keyLeB_cons_iff.mpr (Or.inr ⟨h, hh⟩))
        · exact Or.inr (keyLeB_cons_iff.mpr (Or.inr ⟨h.symm, hh⟩))
      · exact Or.inr (keyLeB_cons_iff.mpr (Or.inl h))

theorem keyLeB_trans :
    ∀ a b c : List Char, keyLeB a b = true → keyLeB b c = true → keyLeB a c = true := by
  intro a
  induction a with
  | nil => intro b c _ _; rfl
  | cons x xs ih =>
    intro b c hab hbc
    cases b with
    | nil => simp [keyLeB] at hab
    | cons y ys =>
      cases c with
      | nil => simp [keyLeB] at hbc
      | cons z zs =>
        rcases keyLeB_cons_iff.mp hab with h1 | ⟨h1, h1'⟩ <;>
          rcases keyLeB_cons_iff.mp hbc with h2 | ⟨h2, h2'⟩
        · exact keyLeB_cons_iff.mpr (Or.inl (by omega))
        · exact keyLeB_cons_iff.mpr (Or.inl (by omega))
        · exact keyLeB_cons_iff.mpr (Or.inl (by omega))
        · exact keyLeB_cons_iff.mpr (Or.inr ⟨by omega, ih ys zs h1' h2'⟩)

instance : IsTotal RawFile fileLeRel := ⟨fun a b => keyLeB_total a.key.data b.key.data⟩

instance : IsTrans RawFile fileLeRel :=
  ⟨fun a b c hab hbc => keyLeB_trans a.key.data b.key.data c.key.data hab hbc⟩

/-- The `.csv`/`.parquet` filter over the listed keys. -/
def rawKeysOf (raws : List RawFile) : List RawFile :=
  raws.filter (fun f => strEndsWith f.key ".csv" || strEndsWith f.key ".parquet")

/-- `build_master_table` (ingest.py): list and sort the raw keys, compute the
already-materialized partitions once, process each file, then rebuild the
station dimension from the full master and write it. -/
def build_master_table (stations : List StationRow) (missing_months : Bool)
    (raws : List RawFile) (store : Store) :
    Except String (Store × List Effect) :=
  (processFiles stations missing_months
      (if missing_months then partsKeys store else [])
      (List.insertionSort fileLeRel (rawKeysOf raws)) store).bind (fun p =>
    (build_station_dimension (allRows p.1)).map (fun dim =>
      (p.1, p.2 ++ [.writeStations dim])))

def isWritePartitionB (e : Effect) : Bool :=
  match e with
  | .writePartition _ _ => true
  | _ => false

def isWriteB (e : Effect) : Bool :=
  match e with
  | .writePartition _ _ => true
  | .writeStations _ => true
  | _ => false

/-- The `(year, month)` keys of the partition writes of a trace, in order. -/
def partitionWriteKeys (t : List Effect) : List (Int × Int) :=
  t.filterMap (fun e =>
    match e with
    | .writePartition k _ => some k
    | _ => none)

theorem partsKeys_putPart (s : Store) (k : Int × Int) (rows : List Row)
    (k' : Int × Int) :
    k' ∈ partsKeys (putPart s k rows) ↔ (k' ∈ partsKeys s ∨ k' = k) := by
  unfold putPart partsKeys
  split
  · next hany =>
    have hmapeq : (s.parts.map (fun p => if p.1 = k then (k, rows) else p)).map
        Prod.fst = s.parts.map Prod.fst := by
      rw [List.map_map]
      apply List.map_congr_left
      intro p _
      by_cases hp : p.1 = k
      · simp [hp]
      · simp [hp]
    show k' ∈ (s.parts.map (fun p => if p.1 = k then (k, rows) else p)).map Prod.fst ↔ _
    rw [hmapeq]
    constructor
    · exact Or.inl
    · rintro (h | rfl)
      · exact h
      · rw [List.any_eq_true] at hany
        obtain ⟨p, hp, hpk⟩ := hany
        rw [List.mem_map]
        exact ⟨p, hp, by simpa using hpk⟩
  · show k' ∈ (s.parts ++ [(k, rows)]).map Prod.fst ↔ _
    rw [List.map_append]
    simp [List.mem_append]

theorem find?_map_putPart_ne (ps : List ((Int × Int) × List Row))
    (k k' : Int × Int) (rows : List Row) (h : k' ≠ k) :
    List.find? (fun p => p.1 = k') (ps.map (fun p => if p.1 = k then (k, rows) else p)) =
      List.find? (fun p => p.1 = k') ps := by
  induction ps with
  | nil => rfl
  | cons p ps ih =>
    simp only [List.map_cons, List.find?]
    by_cases hp : p.1 = k
    · simp only [if_pos hp]
      have h1 : (decide ((k, rows).1 = k')) = false := by simp [Ne.symm h]
      have h2 : (decide (p.1 = k')) = false := by simp [hp, Ne.symm h]
      rw [h1, h2]
      exact ih
    · simp only [if_neg hp]
      by_cases hk' : p.1 = k'
      · simp [hk']
      · have h3 : (decide (p.1 = k')) = false := by simp [hk']
        rw [h3]
        exact ih

theorem lookupPart_putPart_ne {s : Store} {k k' : Int × Int} {rows : List Row}
    (h : k' ≠ k) : lookupPart (putPart s k rows) k' = lookupPart s k' := by
  unfold putPart lookupPart
  split
  · show (List.find? _ (s.parts.map _)).map _ = _
    rw [find?_map_putPart_ne s.parts k k' rows h]
  · show (List.find? _ (s.parts ++ [(k, rows)])).map _ = _
    rw [List.find?_append]
    cases hg : s.parts.find? (fun p => p.1 = k') with
    | none => simp [Ne.symm h]
    | some q => simp

theorem processBulkKeys_skip_all {missing : Bool} {already : List (Int × Int)}
    {df : List Row} :
    ∀ (ks : List (Int × Int)) (s : Store),
      (∀ k ∈ ks, missing = true ∧ k ∈ already) →
      processBulkKeys missing already df ks s = (s, []) := by
  intro ks
  induction ks with
  | nil => intro s _; rfl
  | cons k rest ih =>
    intro s h
    unfold processBulkKeys
    rw [if_pos (h k (List.mem_cons_self _ _))]
    exact ih s (fun k' hk' => h k' (List.mem_cons_of_mem _ hk'))

theorem processBulkKeys_mono {missing : Bool} {already : List (Int × Int)}
    {df : List Row} :
    ∀ (ks : List (Int × Int)) (s : Store) (k' : Int × Int),
      k' ∈ partsKeys s →
      k' ∈ partsKeys (processBulkKeys missing already df ks s).1 := by
  intro ks
  induction ks with
  | nil => intro s k' h; exact h
  | cons k rest ih =>
    intro s k' h
    unfold processBulkKeys
    split
    · exact ih s k' h
    · exact ih _ k' ((partsKeys_putPart _ _ _ _).mpr (Or.inl h))

theorem processBulkKeys_cover {missing : Bool} {already : List (Int × Int)}
    {df : List Row} :
    ∀ (ks : List (Int × Int)) (s : Store) (k : Int × Int),
      k ∈ ks →
      k ∈ partsKeys (processBulkKeys missing already df ks s).1 ∨
        (missing = true ∧ k ∈ already) := by
  intro ks
  induction ks with
  | nil => intro s k h; cases h
  | cons k0 rest ih =>
    intro s k h
    unfold processBulkKeys
    split
    · next hguard =>
      rcases List.mem_cons.mp h with rfl | hmem
      · exact Or.inr hguard
      · exact ih s k hmem
    · rcases List.mem_cons.mp h with rfl | hmem
      · exact Or.inl (processBulkKeys_mono rest _ k
          ((partsKeys_putPart _ _ _ _).mpr (Or.inr rfl)))
      · exact ih _ k hmem

/-- The `(year, month)` partitions a raw file can target: its filename month
for a monthly file, the derived month groups for a bulk file. -/
def candKeys (st : List StationRow) (f : RawFile) : List (Int × Int) :=
  match keyKind f.key with
  | .monthly y m => [(y, m)]
  | .bulk _ =>
    match normalizeFile st f with
    | .ok df => (bulkKeys df).toOption.getD []
    | .error _ => []
  | .ignore => []

/-- The data-dependent steps of one file succeed. -/
def fileOk (st : List StationRow) (f : RawFile) : Prop :=
  match keyKind f.key with
  | .ignore => True
  | .monthly _ _ => ∃ df, normalizeFile st f = .ok df
  | .bulk _ => ∃ df ks, normalizeFile st f = .ok df ∧ bulkKeys df = .ok ks

theorem processFile_mono {st : List StationRow} {missing : Bool}
    {already : List (Int × Int)} {f : RawFile} {s s' : Store} {t : List Effect}
    (h : processFile st missing already f s = .ok (s', t)) :
    ∀ k ∈ partsKeys s, k ∈ partsKeys s' := by
  intro k hk
  unfold processFile at h
  cases hkind : keyKind f.key with
  | ignore =>
    rw [hkind] at h
    simp only [Except.ok.injEq, Prod.mk.injEq] at h
    rw [← h.1]
    exact hk
  | monthly y m =>
    rw [hkind] at h
    obtain ⟨df, _, hrest⟩ := bind_eq_ok h
    split at hrest
    · simp only [Except.ok.injEq, Prod.mk.injEq] at hrest
      rw [← hrest.1]
      exact hk
    · simp only [Except.ok.injEq, Prod.mk.injEq] at hrest
      rw [← hrest.1]
      exact (partsKeys_putPart _ _ _ _).mpr (Or.inl hk)
  | bulk y =>
    rw [hkind] at h
    obtain ⟨df, _, hrest⟩ := bind_eq_ok h
    obtain ⟨ks, _, hmap⟩ := map_eq_ok hrest
    have hs' : (processBulkKeys missing already df ks s).1 = s' := by
      have := congrArg Prod.fst hmap
      simpa using this
    rw [← hs']
    exact processBulkKeys_mono ks s k hk

theorem processFile_cover {st : List StationRow} {missing : Bool}
    {already : List (Int × Int)} {f : RawFile} {s s' : Store} {t : List Effect}
    (h : processFile st missing already f s = .ok (s', t)) :
    ∀ k ∈ candKeys st f, k ∈ partsKeys s' ∨ (missing = true ∧ k ∈ already) := by
  intro k hk
  unfold processFile at h
  unfold candKeys at hk
  cases hkind : keyKind f.key with
  | ignore => rw [hkind] at hk; cases hk
  | monthly y m =>
    rw [hkind] at h hk
    obtain ⟨df, _, hrest⟩ := bind_eq_ok h
    have hkym : k = (y, m) := by simpa using hk
    subst hkym
    split at hrest
    · next hguard => exact Or.inr hguard
    · simp only [Except.ok.injEq, Prod.mk.injEq] at hrest
      rw [← hrest.1]
      exact Or.inl ((partsKeys_putPart _ _ _ _).mpr (Or.inr rfl))
  | bulk y =>
    simp only [hkind] at h hk
    obtain ⟨df, hdf, hrest⟩ := bind_eq_ok h
    obtain ⟨ks, hks, hmap⟩ := map_eq_ok hrest
    simp only [hdf, hks] at hk
    have hks' : k ∈ ks := by
      simpa [Except.toOption] using hk
    have hs' : (processBulkKeys missing already df ks s).1 = s' := by
      have := congrArg Prod.fst hmap
      simpa using this
    rw [← hs']
    exact processBulkKeys_cover ks s k hks'

theorem processFile_fileOk {st : List StationRow} {missing : Bool}
    {already : List (Int × Int)} {f : RawFile} {s s' : Store} {t : List Effect}
    (h : processFile st missing already f s = .ok (s', t)) : fileOk st f := by
  unfold processFile at h
  unfold fileOk
  cases hkind : keyKind f.key with
  | ignore => trivial
  | monthly y m =>
    rw [hkind] at h
    obtain ⟨df, hdf, _⟩ := bind_eq_ok h
    exact ⟨df, hdf⟩
  | bulk y =>
    rw [hkind] at h
    obtain ⟨df, hdf, hrest⟩ := bind_eq_ok h
    obtain ⟨ks, hks, _⟩ := map_eq_ok hrest
    exact ⟨df, ks, hdf, hks⟩

theorem processFile_skip {st : List StationRow} {already : List (Int × Int)}
    {f : RawFile} (s : Store)
    (hok : fileOk st f) (hcand : ∀ k ∈ candKeys st f, k ∈ already) :
    ∃ t, processFile st true already f s = .ok (s, t) ∧ t.filter isWriteB = [] := by
  unfold processFile
  unfold fileOk at hok
  unfold candKeys at hcand
  cases hkind : keyKind f.key with
  | ignore =>
    simp only [hkind]
    exact ⟨[], rfl, rfl⟩
  | monthly y m =>
    simp only [hkind] at hok hcand ⊢
    obtain ⟨df, hdf⟩ := hok
    refine ⟨[.readRaw f.key, .normalized f.key], ?_, rfl⟩
    simp [hdf, Except.bind, hcand (y, m) (List.mem_cons_self _ _)]
  | bulk y =>
    simp only [hkind] at hok hcand ⊢
    obtain ⟨df, ks, hdf, hks⟩ := hok
    simp only [hdf, hks] at hcand
    have hall : ∀ k ∈ ks, (true : Bool) = true ∧ k ∈ already := by
      intro k hk
      exact ⟨rfl, hcand k (by simpa [Except.toOption] using hk)⟩
    refine ⟨[.readRaw f.key, .normalized f.key], ?_, rfl⟩
    simp [hdf, Except.bind, hks, Except.map, processBulkKeys_skip_all ks s hall]

theorem processFiles_mono {st : List StationRow} {missing : Bool}
    {already : List (Int × Int)} :
    ∀ {files : List RawFile} {s s' : Store} {t : List Effect},
      processFiles st missing already files s = .ok (s', t) →
      ∀ k ∈ partsKeys s, k ∈ partsKeys s' := by
  intro files
  induction files with
  | nil =>
    intro s s' t h k hk
    simp only [processFiles, Except.ok.injEq, Prod.mk.injEq] at h
    rw [← h.1]
    exact hk
  | cons f fs ih =>
    intro s s' t h k hk
    simp only [processFiles] at h
    obtain ⟨p, hp, hrest⟩ := bind_eq_ok h
    obtain ⟨q, hq, hpair⟩ := map_eq_ok hrest
    have hq1 : q.1 = s' := (congrArg Prod.fst hpair)
    rw [← hq1]
    exact ih (by rw [← Prod.mk.eta (p := q)] at hq; exact hq) k
      (processFile_mono (by rw [← Prod.mk.eta (p := p)] at hp; exact hp) k hk)

theorem processFiles_fileOk {st : List StationRow} {missing : Bool}
    {already : List (Int × Int)} :
    ∀ {files : List RawFile} {s s' : Store} {t : List Effect},
      processFiles st missing already files s = .ok (s', t) →
      ∀ f ∈ files, fileOk st f := by
  intro files
  induction files with
  | nil => intro s s' t _ f hf; cases hf
  | cons f0 fs ih =>
    intro s s' t h f hf
    simp only [processFiles] at h
    obtain ⟨p, hp, hrest⟩ := bind_eq_ok h
    obtain ⟨q, hq, _⟩ := map_eq_ok hrest
    rcases List.mem_cons.mp hf with rfl | hmem
    · exact processFile_fileOk (by rw [← Prod.mk.eta (p := p)] at hp; exact hp)
    · exact ih (by rw [← Prod.mk.eta (p := q)] at hq; exact hq) f hmem

theorem processFiles_cover {st : List StationRow}
    {already : List (Int × Int)} :
    ∀ {files : List RawFile} {s s' : Store} {t : List Effect},
      processFiles st true already files s = .ok (s', t) →
      ∀ f ∈ files, ∀ k ∈ candKeys st f, k ∈ partsKeys s' ∨ k ∈ already := by
  intro files
  induction files with
  | nil => intro s s' t _ f hf; cases hf
  | cons f0 fs ih =>
    intro s s' t h f hf k hk
    simp only [processFiles] at h
    obtain ⟨p, hp, hrest⟩ := bind_eq_ok h
    obtain ⟨q, hq, hpair⟩ := map_eq_ok hrest
    have hp' : processFile st true already f0 s = .ok (p.1, p.2) := by
      rw [Prod.mk.eta]; exact hp
    have hq' : processFiles st true already fs p.1 = .ok (q.1, q.2) := by
      rw [Prod.mk.eta]; exact hq
    have hq1 : q.1 = s' := (congrArg Prod.fst hpair)
    rcases List.mem_cons.mp hf with rfl | hmem
    · rcases processFile_cover hp' k hk with hin | ⟨_, hal⟩
      · left
        rw [← hq1]
        exact processFiles_mono hq' k hin
      · exact Or.inr hal
    · rw [← hq1]
      exact ih hq' f hmem k hk

theorem processFiles_skip {st : List StationRow} {already : List (Int × Int)} :
    ∀ (files : List RawFile) (s : Store),
      (∀ f ∈ files, fileOk st f ∧ ∀ k ∈ candKeys st f, k ∈ already) →
      ∃ t, processFiles st true already files s = .ok (s, t) ∧
        t.filter isWriteB = [] := by
  intro files
  induction files with
  | nil => intro s _; exact ⟨[], rfl, rfl⟩
  | cons f fs ih =>
    intro s h
    obtain ⟨t1, ht1, hw1⟩ := processFile_skip s (h f (List.mem_cons_self _ _)).1
      (h f (List.mem_cons_self _ _)).2
    obtain ⟨t2, ht2, hw2⟩ := ih s (fun f' hf' => h f' (List.mem_cons_of_mem _ hf'))
    refine ⟨t1 ++ t2, ?_, ?_⟩
    · simp only [processFiles, ht1, Except.bind, ht2, Except.map]
    · rw [List.filter_append, hw1, hw2]
      rfl

theorem build_master_table_inv {st : List StationRow} {missing : Bool}
    {raws : List RawFile} {store s1 : Store} {t1 : List Effect}
    (h : build_master_table st missing raws store = .ok (s1, t1)) :
    ∃ t dim,
      processFiles st missing (if missing then partsKeys store else [])
        (List.insertionSort fileLeRel (rawKeysOf raws)) store = .ok (s1, t) ∧
      build_station_dimension (allRows s1) = .ok dim ∧
      t1 = t ++ [.writeStations dim] := by
  unfold build_master_table at h
  obtain ⟨p, hp, hrest⟩ := bind_eq_ok h
  obtain ⟨dim, hdim, hpair⟩ := map_eq_ok hrest
  have h1 : p.1 = s1 := congrArg Prod.fst hpair
  have h2 : p.2 ++ [Effect.writeStations dim] = t1 := congrArg Prod.snd hpair
  subst h1
  exact ⟨p.2, dim, by rw [Prod.mk.eta]; exact hp, hdim, h2.symm⟩

/-- C3 counterexample setup: one monthly raw file, built once into an empty
store, then built again with nothing new. -/
def idemRow : Row :=
  [("ride_id", .str "R1"),
   ("rideable_type", .str "classic_bike"),
   ("started_at", .str "2020-01-05 10:00:00"),
   ("ended_at", .str "2020-01-05 10:10:00"),
   ("start_station_id", .str "31000"),
   ("end_station_id", .str "31000"),
   ("start_station_name", .str "A"),
   ("end_station_name", .str "B"),
   ("start_lat", .float 38), ("start_lng", .float (-77)),
   ("end_lat", .float 38), ("end_lng", .float (-77)),
   ("member_casual", .str "member")]

def idemFiles : List RawFile := [⟨"202001.csv", [idemRow]⟩]

def idemRun1 : Except String (Store × List Effect) :=
  build_master_table [] true idemFiles ⟨[]⟩

def idemStore1 : Store := (idemRun1.toOption.map Prod.fst).getD ⟨[]⟩

def idemTrace1 : List Effect := (idemRun1.toOption.map Prod.snd).getD []

def idemRun2 : Except String (Store × List Effect) :=
  build_master_table [] true idemFiles idemStore1

/-- C3 counterexample: after a first build of one monthly file, a second
build with `missing_months=True` and no new raw files skips every partition
but still performs one write — the station-dimension object is rewritten
unconditionally at the end of every run — so the second run does not produce
zero writes. -/
theorem C3_counterexample_station_dimension_rewritten :
    idemRun1.isOk = true ∧
    idemRun2.map (fun p => (p.2.filter isWriteB).length) = .ok 1 ∧
    idemRun2.map (fun p => p.2.filter isWritePartitionB) = .ok [] ∧
    (1 : Nat) ≠ 0 := by
  decide

/-- C3 (amended): a second `build_master_table` run with `missing_months=True`
and the same stations, raw files and (now materialized) store rewrites no
monthly or bulk-derived partition and leaves the store untouched; its only
write is the station-dimension object, whose content equals what the first
run already wrote. -/
theorem C3_amended_second_run_writes_only_stations
    {st : List StationRow} {files : List RawFile} {store s1 : Store}
    {t1 : List Effect}
    (h1 : build_master_table st true files store = .ok (s1, t1)) :
    ∃ t2 dim, build_master_table st true files s1 = .ok (s1, t2) ∧
      t2.filter isWritePartitionB = [] ∧
      t2.filter isWriteB = [Effect.writeStations dim] ∧
      Effect.writeStations dim ∈ t1 := by
  obtain ⟨tA, dim, hpf, hdim, ht1⟩ := build_master_table_inv h1
  simp only [if_pos rfl] at hpf
  have hcov := processFiles_cover hpf
  have hok := processFiles_fileOk hpf
  have hmono := processFiles_mono hpf
  have hall : ∀ f ∈ List.insertionSort fileLeRel (rawKeysOf files),
      fileOk st f ∧ ∀ k ∈ candKeys st f, k ∈ partsKeys s1 := by
    intro f hf
    refine ⟨hok f hf, fun k hk => ?_⟩
    rcases hcov f hf k hk with h | h
    · exact h
    · exact hmono k h
  obtain ⟨t2', ht2', hw2'⟩ := processFiles_skip
    (List.insertionSort fileLeRel (rawKeysOf files)) s1 hall
  refine ⟨t2' ++ [.writeStations dim], dim, ?_, ?_, ?_, ?_⟩
  · unfold build_master_table
    rw [show (if true = true then partsKeys s1 else []) = partsKeys s1 from rfl, ht2']
    simp [Except.bind, hdim, Except.map]
  · rw [List.filter_append]
    have : t2'.filter isWritePartitionB = [] := by
      rw [List.filter_eq_nil_iff] at hw2' ⊢
      intro e he hpart
      exact hw2' e he (by
        cases e <;> simp [isWriteB, isWritePartitionB] at hpart ⊢)
    rw [this]
    rfl
  · rw [List.filter_append, hw2']
    rfl
  · rw [ht1]
    exact List.mem_append_right _ (List.mem_cons_self _ _)

theorem C3_amended_second_run_writes_only_stations_witness :
    ∃ t2 dim, build_master_table [] true idemFiles idemStore1 = .ok (idemStore1, t2) ∧
      t2.filter isWritePartitionB = [] ∧
      t2.filter isWriteB = [Effect.writeStations dim] ∧
      Effect.writeStations dim ∈ idemTrace1 :=
  @C3_amended_second_run_writes_only_stations
    [] idemFiles ⟨[]⟩ idemStore1 idemTrace1 (by decide)

/-- C9 (amended): in missing-months mode a monthly file whose `(year, month)`
partition already exists is still read and normalized — the read happens
before the skip check — but nothing of the master table is written for it:
no partition write occurs and the store is returned unchanged. -/
theorem C9_amended_skipped_month_read_not_written
    {st : List StationRow} {store s' : Store} {t : List Effect} {f : RawFile}
    {y m : Int}
    (hext : (strEndsWith f.key ".csv" || strEndsWith f.key ".parquet") = true)
    (hkind : keyKind f.key = .monthly y m)
    (hmem : (y, m) ∈ partsKeys store)
    (hok : build_master_table st true [f] store = .ok (s', t)) :
    s' = store ∧ Effect.readRaw f.key ∈ t ∧ Effect.normalized f.key ∈ t ∧
      t.filter isWritePartitionB = [] := by
  obtain ⟨tA, dim, hpf, hdim, ht⟩ := build_master_table_inv hok
  have hsorted : List.insertionSort fileLeRel (rawKeysOf [f]) = [f] := by
    simp [rawKeysOf, List.filter, hext, List.insertionSort]
  rw [hsorted] at hpf
  simp only [processFiles] at hpf
  obtain ⟨p, hp, hrest⟩ := bind_eq_ok hpf
  obtain ⟨q, hq, hpair⟩ := map_eq_ok hrest
  have hq2 : (p.1, ([] : List Effect)) = q := by injection hq
  simp only [processFile, hkind] at hp
  obtain ⟨df, hdf, hskip⟩ := bind_eq_ok hp
  rw [if_pos ⟨trivial, hmem⟩] at hskip
  have hpeq : (store, [Effect.readRaw f.key, Effect.normalized f.key]) = p := by
    injection hskip
  have hs' : s' = store := by
    have := congrArg Prod.fst hpair
    simp only at this
    rw [← this, ← hq2, ← hpeq]
  have htA : tA = [Effect.readRaw f.key, Effect.normalized f.key] := by
    have := congrArg Prod.snd hpair
    simp only at this
    rw [← this, ← hq2, ← hpeq]
    rfl
  refine ⟨hs', ?_, ?_, ?_⟩
  · rw [ht, htA]
    exact List.mem_append_left _ (List.mem_cons_self _ _)
  · rw [ht, htA]
    exact List.mem_append_left _ (List.mem_cons_of_mem _ (List.mem_cons_self _ _))
  · rw [ht, htA]
    rfl

/-- A monthly raw file whose partition is already materialized. -/
def skipRow : Row :=
  [("ride_id", .str "R9"),
   ("rideable_type", .str "classic_bike"),
   ("started_at", .str "2015-01-05 10:00:00"),
   ("ended_at", .str "2015-01-05 10:10:00"),
   ("start_station_id", .str "31000"),
   ("end_station_id", .str "31000"),
   ("start_station_name", .str "A"),
   ("end_station_name", .str "B"),
   ("start_lat", .float 38), ("start_lng", .float (-77)),
   ("end_lat", .float 38), ("end_lng", .float (-77)),
   ("member_casual", .str "member")]

def skipFile : RawFile := ⟨"201501.csv", [skipRow]⟩

def skipStore : Store := ⟨[((2015, 1), [])]⟩

def skipRun : Except String (Store × List Effect) :=
  build_master_table [] true [skipFile] skipStore

def skipTrace : List Effect := (skipRun.toOption.map Prod.snd).getD []

def skipOutStore : Store := (skipRun.toOption.map Prod.fst).getD ⟨[]⟩

/-- C9 counterexample: with `missing_months=True` and partition `(2015, 1)`
already in the store, the build still reads and normalizes `201501.csv` — the
trace contains both effects — even though the partition is not rewritten; the
claim that the file is "not read or normalized" is false of the code. -/
theorem C9_counterexample_file_read_despite_skip :
    skipRun.isOk = true ∧
    Effect.readRaw "201501.csv" ∈ skipTrace ∧
    Effect.normalized "201501.csv" ∈ skipTrace ∧
    skipTrace.filter isWritePartitionB = [] ∧
    skipOutStore = skipStore := by
  decide

theorem C9_amended_skipped_month_read_not_written_witness :
    skipOutStore = skipStore ∧
    Effect.readRaw skipFile.key ∈ skipTrace ∧
    Effect.normalized skipFile.key ∈ skipTrace ∧
    skipTrace.filter isWritePartitionB = [] :=
  @C9_amended_skipped_month_read_not_written [] skipStore skipOutStore
    skipTrace skipFile 2015 1
    (by decide) (by decide) (by decide) (by decide)

/-- C8: a yearly bulk file whose derived month groups are months 1–3 of 2015,
built with `missing_months=True` into a store where `(2015, 1)` is already
materialized and months 2 and 3 are not: exactly the partitions for months 2
and 3 are written, in that order, and the existing month-1 partition object
is left untouched — the skip-check applies independently per derived
`(year, month)` group. -/
theorem C8_bulk_writes_only_missing_months
    {st : List StationRow} {store s' : Store} {t : List Effect} {f : RawFile}
    {df : List Row}
    (hext : (strEndsWith f.key ".csv" || strEndsWith f.key ".parquet") = true)
    (hkind : keyKind f.key = .bulk 2015)
    (hdf : normalizeFile st f = .ok df)
    (hks : bulkKeys df = .ok [(2015, 1), (2015, 2), (2015, 3)])
    (h1 : (2015, 1) ∈ partsKeys store)
    (h2 : (2015, 2) ∉ partsKeys store)
    (h3 : (2015, 3) ∉ partsKeys store)
    (hok : build_master_table st true [f] store = .ok (s', t)) :
    partitionWriteKeys t = [(2015, 2), (2015, 3)] ∧
    lookupPart s' (2015, 1) = lookupPart store (2015, 1) := by
  obtain ⟨tA, dim, hpf, hdim, ht⟩ := build_master_table_inv hok
  have hsorted : List.insertionSort fileLeRel (rawKeysOf [f]) = [f] := by
    simp [rawKeysOf, List.filter, hext, List.insertionSort]
  rw [hsorted] at hpf
  simp only [processFiles] at hpf
  obtain ⟨p, hp, hrest⟩ := bind_eq_ok hpf
  obtain ⟨q, hq, hpair⟩ := map_eq_ok hrest
  have hq2 : (p.1, ([] : List Effect)) = q := by injection hq
  simp only [processFile, hkind, hdf, Except.bind, hks, Except.map] at hp
  have step1 : processBulkKeys true (if True then partsKeys store else []) df
      [(2015, 1), (2015, 2), (2015, 3)] store =
      processBulkKeys true (if True then partsKeys store else []) df
        [(2015, 2), (2015, 3)] store := by
    rw [processBulkKeys, if_pos ⟨rfl, h1⟩]
  have step2 : processBulkKeys true (if True then partsKeys store else []) df
      [(2015, 2), (2015, 3)] store =
      ((processBulkKeys true (if True then partsKeys store else []) df [(2015, 3)]
          (putPart store (2015, 2)
            (df.filter (fun r => rowYearMonth r = .ok (2015, 2))))).1,
        .writePartition (2015, 2)
            (df.filter (fun r => rowYearMonth r = .ok (2015, 2))) ::
          (processBulkKeys true (if True then partsKeys store else []) df [(2015, 3)]
            (putPart store (2015, 2)
              (df.filter (fun r => rowYearMonth r = .ok (2015, 2))))).2) := by
    rw [processBulkKeys, if_neg (fun hc => h2 hc.2)]
  have step3 : ∀ s0 : Store, processBulkKeys true
      (if True then partsKeys store else []) df [(2015, 3)] s0 =
      (putPart s0 (2015, 3) (df.filter (fun r => rowYearMonth r = .ok (2015, 3))),
        [.writePartition (2015, 3)
          (df.filter (fun r => rowYearMonth r = .ok (2015, 3)))]) := by
    intro s0
    rw [processBulkKeys, if_neg (fun hc => h3 hc.2)]
    rfl
  rw [step1, step2, step3] at hp
  simp only [Except.ok.injEq] at hp
  have hs' : s' = putPart (putPart store (2015, 2)
      (df.filter (fun r => rowYearMonth r = .ok (2015, 2)))) (2015, 3)
      (df.filter (fun r => rowYearMonth r = .ok (2015, 3))) := by
    have hfst := congrArg Prod.fst hpair
    simp only at hfst
    rw [← hfst, ← hq2]
    rw [← hp]
  have htA : tA = p.2 := by
    have hsnd := congrArg Prod.snd hpair
    simp only at hsnd
    rw [← hsnd, ← hq2]
    simp
  constructor
  · rw [ht, htA, ← hp]
    rfl
  · rw [hs']
    rw [lookupPart_putPart_ne (by decide), lookupPart_putPart_ne (by decide)]

/-- A yearly bulk file spanning months 1–3 of 2015. -/
def bulkRow1 : Row :=
  [("ride_id", .str "B1"),
   ("rideable_type", .str "classic_bike"),
   ("started_at", .str "2015-01-10 09:00:00"),
   ("ended_at", .str "2015-01-10 09:15:00"),
   ("start_station_id", .str "31000"),
   ("end_station_id", .str "31001"),
   ("start_station_name", .str "A"),
   ("end_station_name", .str "B"),
   ("start_lat", .float 38), ("start_lng", .float (-77)),
   ("end_lat", .float 38), ("end_lng", .float (-77)),
   ("member_casual", .str "member")]

def bulkRow2 : Row :=
  [("ride_id", .str "B2"),
   ("rideable_type", .str "classic_bike"),
   ("started_at", .str "2015-02-11 09:00:00"),
   ("ended_at", .str "2015-02-11 09:15:00"),
   ("start_station_id", .str "31000"),
   ("end_station_id", .str "31001"),
   ("start_station_name", .str "A"),
   ("end_station_name", .str "B"),
   ("start_lat", .float 38), ("start_lng", .float (-77)),
   ("end_lat", .float 38), ("end_lng", .float (-77)),
   ("member_casual", .str "casual")]

def bulkRow3 : Row :=
  [("ride_id", .str "B3"),
   ("rideable_type", .str "electric_bike"),
   ("started_at", .str "2015-03-12 09:00:00"),
   ("ended_at", .str "2015-03-12 09:15:00"),
   ("start_station_id", .str "31000"),
   ("end_station_id", .str "31001"),
   ("start_station_name", .str "A"),
   ("end_station_name", .str "B"),
   ("start_lat", .float 38), ("start_lng", .float (-77)),
   ("end_lat", .float 38), ("end_lng", .float (-77)),
   ("member_casual", .str "member")]

def bulkFile : RawFile := ⟨"2015.csv", [bulkRow1, bulkRow2, bulkRow3]⟩

def bulkStore : Store := ⟨[((2015, 1), [])]⟩

def bulkDf : List Row := (normalizeFile [] bulkFile).toOption.getD []

def bulkRun : Except String (Store × List Effect) :=
  build_master_table [] true [bulkFile] bulkStore

def bulkTrace : List Effect := (bulkRun.toOption.map Prod.snd).getD []

def bulkOutStore : Store := (bulkRun.toOption.map Prod.fst).getD ⟨[]⟩

theorem C8_bulk_writes_only_missing_months_witness :
    partitionWriteKeys bulkTrace = [(2015, 2), (2015, 3)] ∧
    lookupPart bulkOutStore (2015, 1) = lookupPart bulkStore (2015, 1) :=
  @C8_bulk_writes_only_missing_months [] bulkStore bulkOutStore bulkTrace
    bulkFile bulkDf
    (by decide) (by decide) (by decide) (by decide) (by decide) (by decide)
    (by decide) (by decide)
